import Mathlib

/-!
Verification development for the document parsing / chunking / storage core
of a chat-with-documents application.

The Python source is shallowly embedded: Python strings are `List Char`
(so `len` is `List.length` and slicing is `take`/`drop`), `None`-able
parameters are `Option`, and Python truthiness (`if x:` treating `None`,
`0`, `""` and `[]` as false) is modelled explicitly at each use site.
External libraries (pdfplumber, pymupdf, openpyxl, python-pptx,
python-docx, the stdlib HTML tokenizer, the database driver) are modelled
by passing their decoded output as an explicit argument to the embedded
function; everything the repository's own code does with that output is
translated statement by statement.
-/

/-- Python strings are embedded as lists of characters. -/
abbrev Str := List Char

/-- Python `str.strip()` with no argument: remove leading and trailing
whitespace.  (Python strips Unicode whitespace; the embedding uses
`Char.isWhitespace`, which covers the ASCII whitespace of the inputs in
this development.) -/
def pyStrip (s : Str) : Str :=
  ((s.dropWhile Char.isWhitespace).reverse.dropWhile Char.isWhitespace).reverse

/-- Python truthiness of a string: `""` is falsy. -/
def pyTruthy (s : Str) : Bool := s ≠ []

/-- Python `x or d` for an optional integer parameter `x` with default
`d`: both `None` and `0` are falsy, so both fall back to the default.
This is the defaulting idiom `chunk_size = chunk_size or self.default_chunk_size`
used throughout the repository. -/
def orDefault (v : Option Nat) (d : Nat) : Nat :=
  match v with
  | none => d
  | some n => if n = 0 then d else n

/-- Python truthiness of an optional integer: `None` and `0` are falsy
(the `if chunk_size:` re-chunk guards in the format extractors). -/
def optTruthy (v : Option Nat) : Bool :=
  match v with
  | none => false
  | some n => n ≠ 0

/-- Decimal digit character. -/
def digitChar (n : Nat) : Char := Char.ofNat (48 + n % 10)

/-- Fuelled decimal rendering of a natural number (structural, so that it
reduces in the kernel). -/
def natToStrAux : Nat → Nat → Str
  | 0, _ => []
  | fuel + 1, n => if n < 10 then [digitChar n] else natToStrAux fuel (n / 10) ++ [digitChar n]

/-- Decimal rendering of a natural number, e.g. for the `f"{prefix}_{idx}"`
chunk labels. -/
def natToStr (n : Nat) : Str := natToStrAux (n + 1) n

/-- `sep.join(parts)` from Python. -/
def joinSep (sep : Str) : List Str → Str
  | [] => []
  | [x] => x
  | x :: xs => x ++ sep ++ joinSep sep xs

/-- `"\n".join` shorthand used by several extractors. -/
def joinNl (parts : List Str) : Str := joinSep ['\n'] parts

/-- `FileType` enumeration from `api/services/documents/base.py`. -/
inductive FileType where
  | docx | doc | pptx | ppt | xlsx | xls
  | txt | md | csv | json | xml | html
  | pdf
  | eml | msg | pst
  | png | jpg | jpeg | tiff
  | rtf | odt | ods | odp
  | unknown
deriving DecidableEq, Repr

/-- The string value of each `FileType` member. -/
def FileType.value : FileType → Str
  | docx => "docx".toList | doc => "doc".toList | pptx => "pptx".toList
  | ppt => "ppt".toList | xlsx => "xlsx".toList | xls => "xls".toList
  | txt => "txt".toList | md => "md".toList | csv => "csv".toList
  | json => "json".toList | xml => "xml".toList | html => "html".toList
  | pdf => "pdf".toList | eml => "eml".toList | msg => "msg".toList
  | pst => "pst".toList | png => "png".toList | jpg => "jpg".toList
  | jpeg => "jpeg".toList | tiff => "tiff".toList | rtf => "rtf".toList
  | odt => "odt".toList | ods => "ods".toList | odp => "odp".toList
  | unknown => "unknown".toList

/-- The `FileType(ext)` enum constructor lookup: the closed tag table.
Returns `none` where Python raises `ValueError`. -/
def fileTypeOfString (s : Str) : Option FileType :=
  if s = "docx".toList then some .docx else if s = "doc".toList then some .doc
  else if s = "pptx".toList then some .pptx else if s = "ppt".toList then some .ppt
  else if s = "xlsx".toList then some .xlsx else if s = "xls".toList then some .xls
  else if s = "txt".toList then some .txt else if s = "md".toList then some .md
  else if s = "csv".toList then some .csv else if s = "json".toList then some .json
  else if s = "xml".toList then some .xml else if s = "html".toList then some .html
  else if s = "pdf".toList then some .pdf else if s = "eml".toList then some .eml
  else if s = "msg".toList then some .msg else if s = "pst".toList then some .pst
  else if s = "png".toList then some .png else if s = "jpg".toList then some .jpg
  else if s = "jpeg".toList then some .jpeg else if s = "tiff".toList then some .tiff
  else if s = "rtf".toList then some .rtf else if s = "odt".toList then some .odt
  else if s = "ods".toList then some .ods else if s = "odp".toList then some .odp
  else if s = "unknown".toList then some .unknown
  else none

/-- `TextChunk` dataclass from `base.py`. -/
structure TextChunk where
  content : Str
  source : Str
  chunk_index : Nat
  heading : Option Str := none
  page_number : Option Nat := none
deriving DecidableEq, Repr

/-- One step of `re.split(r'(?<=[.!?])\s+', text)`: scan the text and cut
at every maximal whitespace run that directly follows `.`, `!` or `?`
(the whitespace is the delimiter and is dropped; the punctuation stays
with the left unit).  `acc` is the reversed current unit; `skipping`
records that we are inside the delimiter's whitespace run. -/
def reSplitSentencesAux : List Char → Str → Bool → List Str
  | [], acc, skipping => if skipping then [[]] else [acc.reverse]
  | c :: rest, acc, skipping =>
    if skipping ∧ c.isWhitespace then
      reSplitSentencesAux rest acc true
    else if (c = '.' ∨ c = '!' ∨ c = '?') ∧ (rest.head?.any Char.isWhitespace) then
      (acc.reverse ++ [c]) :: reSplitSentencesAux rest [] true
    else
      reSplitSentencesAux rest (c :: acc) false

/-- `re.split(r'(?<=[.!?])\s+', text)`. -/
def reSplitSentences (text : Str) : List Str :=
  reSplitSentencesAux text [] false

/-- `BaseParser._split_sentences`: regex split, drop blank units, append
one space to each kept unit. -/
def split_sentences (text : Str) : List Str :=
  (reSplitSentences text).filter (fun s => pyStrip s ≠ []) |>.map (fun s => s ++ [' '])

/-- Python slice `text[-k:]`.  Note `text[-0:]` is the whole string. -/
def pySliceLast (text : Str) (k : Nat) : Str :=
  if k = 0 then text else text.drop (text.length - k)

/-- `BaseParser._get_overlap`: last `overlap_size` characters, advanced
past the first space of that tail when one occurs at a positive index. -/
def get_overlap (text : Str) (overlap_size : Nat) : Str :=
  if text.length ≤ overlap_size then text
  else
    let overlap := pySliceLast text overlap_size
    match overlap.findIdx? (fun c => c = ' ') with
    | some i => if 0 < i then overlap.drop (i + 1) else overlap
    | none => overlap

/-- `BaseParser.default_chunk_size`. -/
def default_chunk_size : Nat := 1000

/-- `BaseParser.default_chunk_overlap`. -/
def default_chunk_overlap : Nat := 200

/-- The sentence-accumulation loop of `BaseParser.chunk_text`:
`cur` is `current_chunk`, `idx` is `chunk_idx`. -/
def chunkLoop (pfx : Str) (size ov : Nat) : List Str → Str → Nat → List TextChunk
  | [], cur, idx =>
    if pyStrip cur ≠ [] then
      [{ content := pyStrip cur, source := pfx ++ ['_'] ++ natToStr idx, chunk_index := idx }]
    else []
  | s :: rest, cur, idx =>
    if cur ≠ [] ∧ cur.length + s.length > size then
      { content := pyStrip cur, source := pfx ++ ['_'] ++ natToStr idx, chunk_index := idx }
        :: chunkLoop pfx size ov rest (get_overlap cur ov ++ s) (idx + 1)
    else
      chunkLoop pfx size ov rest (cur ++ s) idx

/-- `BaseParser.chunk_text` from `base.py`: apply the `or`-defaults, return
`[]` for empty/whitespace-only text, then run the sentence-aware loop. -/
def chunk_text (text : Str) (pfx : Str) (csOpt coOpt : Option Nat) : List TextChunk :=
  let size := orDefault csOpt default_chunk_size
  let ov := orDefault coOpt default_chunk_overlap
  if text = [] ∨ pyStrip text = [] then []
  else chunkLoop pfx size ov (split_sentences text) [] 0

/-- `str.lower()` per character (ASCII case mapping, which covers every
registered extension tag). -/
def pyLower (s : Str) : Str := s.map Char.toLower

/-- The final path component, as computed by `pathlib.PurePath.name` on
POSIX: split on `/`, drop empty and `.` components, take the last; a
final `..` component has no name. -/
def pathName (s : Str) : Str :=
  let comps := (s.splitOn '/').filter (fun c => c ≠ [] ∧ c ≠ ['.'])
  match comps.getLast? with
  | some c => if c = ['.', '.'] then [] else c
  | none => []

/-- Index of the last `.` in a name (CPython `name.rfind('.')`),
`none` when absent. -/
def rfindDot (name : Str) : Option Nat :=
  match name.reverse.findIdx? (fun c => c = '.') with
  | some j => some (name.length - 1 - j)
  | none => none

/-- `pathlib.PurePath.suffix`: `name[i:]` for `i = name.rfind('.')` when
`0 < i < len(name) - 1`, else the empty string — so dotfiles
(leading dot) and names with only a trailing dot have no suffix. -/
def pathSuffix (s : Str) : Str :=
  let name := pathName s
  match rfindDot name with
  | some i => if 0 < i ∧ i < name.length - 1 then name.drop i else []
  | none => []

/-- `BaseParser.detect_file_type`:
`ext = Path(filename).suffix.lower().lstrip(".")`, then the `FileType`
table lookup with `UNKNOWN` where Python raises `ValueError`. -/
def detect_file_type (filename : Str) : FileType :=
  let ext := (pyLower (pathSuffix filename)).dropWhile (fun c => c = '.')
  match fileTypeOfString ext with
  | some t => t
  | none => FileType.unknown

/-- The characters of a name after its last `.`. -/
def afterLastDot (s : Str) : Str := (s.reverse.takeWhile (fun c => c ≠ '.')).reverse

/-- Modelled from the spec (C5 wording), for comparison with
`detect_file_type`: "lower-cases the text after the last `.` in the
filename, looks it up in the closed tag table, and returns unknown on no
match or when the filename has no extension". -/
def detectClaimC5 (filename : Str) : FileType :=
  if '.' ∈ filename then
    match fileTypeOfString (pyLower (afterLastDot filename)) with
    | some t => t
    | none => FileType.unknown
  else FileType.unknown

/-- `DocumentMetadata` dataclass from `base.py` (timestamps kept as their
rendered string forms; the `custom` dict as a key/value list). -/
structure DocumentMetadata where
  filename : Str
  file_type : FileType
  file_size : Nat
  file_hash : Str
  title : Option Str := none
  author : Option Str := none
  subject : Option Str := none
  created_at : Option Str := none
  modified_at : Option Str := none
  page_count : Option Nat := none
  word_count : Option Nat := none
  slide_count : Option Nat := none
  sheet_count : Option Nat := none
  custom : List (Str × Str) := []
deriving DecidableEq, Repr

/-- The source discriminator of an extracted table dict
(`page`/`index`, `slide`, `sheet`, bare `index`). -/
inductive TableSource where
  | page (n : Nat) (idx : Nat)
  | slide (n : Nat)
  | sheet (name : Str)
  | index (i : Nat)
deriving DecidableEq, Repr

/-- One extracted table: discriminator plus row-list of cell strings. -/
structure PyTable where
  src : TableSource
  rows : List (List Str)
deriving DecidableEq, Repr

/-- `DocumentContent` dataclass from `base.py` (no extractor in the
repository ever populates `images`, so that field is omitted). -/
structure DocumentContent where
  full_text : Str
  chunks : List TextChunk := []
  tables : List PyTable := []
  links : List Str := []
deriving DecidableEq, Repr

/-- `ParserResult` dataclass from `base.py` (`processing_time_ms` is
wall-clock time and is not modelled). -/
structure ParserResult where
  success : Bool
  metadata : Option DocumentMetadata := none
  content : Option DocumentContent := none
  error : Option Str := none
  warnings : List Str := []
deriving DecidableEq, Repr

/-- The callable behaviour of one registered parser:
`(filename, chunk_size, chunk_overlap) -> ParserResult` (the bytes are
fixed by the call site and folded into the function). -/
def ParserFun := Str → Nat → Nat → ParserResult

/-- `DocumentParserService.parse_upload` from `parser_service.py`,
with the registry as a lookup map and each parser as its behaviour
function.  An unregistered detected tag short-circuits to the
`Unsupported file type` failure; otherwise the `or`-defaulted chunk
parameters are passed to the resolved parser. -/
def parse_upload (registry : FileType → Option ParserFun)
    (dsize dov : Nat) (filename : Str) (cs co : Option Nat) : ParserResult :=
  match registry (detect_file_type filename) with
  | none =>
      { success := false
        error := some ("Unsupported file type: ".toList ++ (detect_file_type filename).value) }
  | some p => p filename (orDefault cs dsize) (orDefault co dov)

/-- `DocumentParserService.parse_file`: the `file_path.exists()` guard,
then the same unsupported-tag rejection and defaulting as
`parse_upload`. -/
def parse_file (fsExists : Str → Bool) (registry : FileType → Option ParserFun)
    (dsize dov : Nat) (path : Str) (cs co : Option Nat) : ParserResult :=
  if fsExists path = false then
    { success := false, error := some ("File not found: ".toList ++ path) }
  else
    match registry (detect_file_type path) with
    | none =>
        { success := false
          error := some ("Unsupported file type: ".toList ++ (detect_file_type path).value) }
    | some p => p path (orDefault cs dsize) (orDefault co dov)

/-- `ContextSourceType` from `context_builder.py`. -/
inductive ContextSourceType where
  | document | email | search | hybrid
deriving DecidableEq, Repr

/-- `ContextChunk` dataclass from `context_builder.py` (the `metadata`
dict carries no behaviour in `to_text` and is omitted; scores are
rationals in place of Python floats). -/
structure ContextChunk where
  content : Str
  source_type : ContextSourceType
  source_id : Str
  source_name : Str
  relevance_score : Option ℚ := none
deriving DecidableEq, Repr

/-- Decimal rendering of an integer. -/
def intToStr (i : Int) : Str :=
  if i < 0 then '-' :: natToStr i.natAbs else natToStr i.natAbs

/-- Two-digit zero-padded rendering. -/
def pad2 (n : Nat) : Str := if n < 10 then '0' :: natToStr n else natToStr n

/-- The `f"{score:.2f}"` rendering of a relevance score, modelled by
truncation to two decimals (the exact rounding of the final digit is a
formatting detail none of the claims depend on). -/
def formatTwoDec (q : ℚ) : Str :=
  let n : Int := (q * 100).floor
  intToStr (n / 100) ++ ['.'] ++ pad2 (n % 100).natAbs

/-- The per-chunk text built by `BuiltContext.to_text`:
`f"[Source: {name}]"`, the optional ` (relevance: {score:.2f})` tail
(skipped when the score is `None` or `0.0`, both falsy), a newline, the
content, and a trailing newline. -/
def renderContextChunk (c : ContextChunk) : Str :=
  let header := "[Source: ".toList ++ c.source_name ++ [']']
  let header := match c.relevance_score with
    | some q => if q ≠ 0 then header ++ " (relevance: ".toList ++ formatTwoDec q ++ [')'] else header
    | none => header
  header ++ ['\n'] ++ c.content ++ ['\n']

/-- `BuiltContext` dataclass (`sources_used` entries as (id, type, name)). -/
structure BuiltContext where
  chunks : List ContextChunk
  total_tokens_estimate : Nat
  sources_used : List (Str × Str × Str) := []
deriving DecidableEq, Repr

/-- The accumulation loop of `BuiltContext.to_text`: `current` is
`current_chars`; the loop `break`s at the first chunk whose rendered text
would push `current_chars` past a truthy `max_chars`. -/
def toTextLoop (mc : Option Nat) : List ContextChunk → Nat → List Str
  | [], _ => []
  | c :: rest, current =>
    let ct := renderContextChunk c
    if optTruthy mc ∧ current + ct.length > mc.getD 0 then []
    else ct :: toTextLoop mc rest (current + ct.length)

/-- `BuiltContext.to_text(max_chars)`: the collected per-chunk texts
joined with the fixed `"\n---\n"` delimiter. -/
def to_text (ctx : BuiltContext) (mc : Option Nat) : Str :=
  joinSep "\n---\n".toList (toTextLoop mc ctx.chunks 0)

/-- One paragraph as surfaced by python-docx: its text and the style
name (`None` when the style has no name). -/
structure DocxPara where
  text : Str
  style : Option Str
deriving DecidableEq, Repr

/-- The `style_name and style_name.startswith("Heading")` test from
`DocxParser._extract_with_docx`. -/
def isHeadingStyle (style : Option Str) : Bool :=
  match style with
  | some s => pyTruthy s && "Heading".toList.isPrefixOf s
  | none => false

/-- The paragraph loop of `DocxParser._extract_with_docx`: skip blank
paragraphs, update `current_heading` on `Heading*`-styled paragraphs,
and emit one `paragraph_{i}` chunk per kept paragraph carrying the
heading current after that update. -/
def docxLoop : List DocxPara → Option Str → Nat → List Str × List TextChunk
  | [], _, _ => ([], [])
  | p :: rest, current_heading, idx =>
    let text := pyStrip p.text
    if text = [] then docxLoop rest current_heading idx
    else
      let h' := if isHeadingStyle p.style then some text else current_heading
      let (paras, chunks) := docxLoop rest h' (idx + 1)
      (text :: paras,
       { content := text, source := "paragraph_".toList ++ natToStr idx,
         chunk_index := idx, heading := h' } :: chunks)

/-- `DocxParser._extract_with_docx` over the decoded document: paragraph
loop, table extraction (cells stripped, empty tables dropped), paragraphs
joined with blank lines, and the whole text re-chunked through
`chunk_text` whenever `chunk_size` is truthy. -/
def extract_with_docx (paras : List DocxPara) (docTables : List (List (List Str)))
    (cs co : Option Nat) : Str × List TextChunk × List PyTable :=
  let (ps, chunks) := docxLoop paras none 0
  let full_text := joinSep "\n\n".toList ps
  let tbls := docTables.enum.filterMap (fun (i, t) =>
    let td := t.map (fun row => row.map pyStrip)
    if td ≠ [] then some (PyTable.mk (.index i) td) else none)
  let chunks := if optTruthy cs then chunk_text full_text "chunk".toList cs co else chunks
  (full_text, chunks, tbls)

/-- One python-pptx shape: optional text-frame paragraph texts and an
optional table of raw cell texts. -/
structure PptxShape where
  text_frame : Option (List Str) := none
  table : Option (List (List Str)) := none
deriving DecidableEq, Repr

/-- The shape loop of one slide in `PptxParser._extract_with_pptx`:
stripped non-blank text-frame paragraphs, then each non-empty table's
rows rendered as `" | "`-joined lines; also returns the extracted
tables of the slide in shape order. -/
def pptxShapesLoop : List PptxShape → List Str × List (List (List Str))
  | [] => ([], [])
  | sh :: rest =>
    let (parts, tbls) := pptxShapesLoop rest
    let textParts := match sh.text_frame with
      | some ps => (ps.map pyStrip).filter (fun t => t ≠ [])
      | none => []
    let (tableParts, tableAcc) := match sh.table with
      | some rows =>
        let td := rows.map (fun row => row.map pyStrip)
        if td ≠ [] then (td.map (joinSep " | ".toList), [td]) else ([], [])
      | none => ([], [])
    (textParts ++ tableParts ++ parts, tableAcc ++ tbls)

/-- The slide loop of `PptxParser._extract_with_pptx` (`n` is the 1-based
`slide_num`): slides with no collected text parts are skipped entirely;
a kept slide yields `[Slide n]`-prefixed full text and one chunk with
`chunk_index = slide_num - 1`. -/
def pptxSlidesLoop : List (List PptxShape) → Nat → List Str × List TextChunk × List PyTable
  | [], _ => ([], [], [])
  | shapes :: rest, n =>
    let (parts, tbls) := pptxShapesLoop shapes
    let (texts, chunks, tables) := pptxSlidesLoop rest (n + 1)
    let tablesHere := tbls.map (fun td => PyTable.mk (.slide n) td)
    if parts ≠ [] then
      let slide_content := joinNl parts
      (("[Slide ".toList ++ natToStr n ++ [']', '\n'] ++ slide_content) :: texts,
       { content := slide_content, source := "slide_".toList ++ natToStr n,
         chunk_index := n - 1, page_number := some n } :: chunks,
       tablesHere ++ tables)
    else (texts, chunks, tablesHere ++ tables)

/-- `PptxParser._extract_with_pptx` over the decoded presentation
(`none` models python-pptx unavailable or raising): slide loop, then a
`chunk_text` re-chunk only when `chunk_size` is truthy AND some slide
chunk exceeds it. -/
def extract_with_pptx (lib : Option (List (List PptxShape)))
    (cs co : Option Nat) : Str × List TextChunk × List PyTable :=
  match lib with
  | none => ([], [], [])
  | some slides =>
    let (texts, chunks, tables) := pptxSlidesLoop slides 1
    let full_text := joinSep "\n\n".toList texts
    let chunks :=
      match cs with
      | some sz =>
        if sz ≠ 0 ∧ chunks.any (fun c => c.content.length > sz) then
          chunk_text full_text "chunk".toList cs co
        else chunks
      | none => chunks
    (full_text, chunks, tables)

/-- Office core/document properties as surfaced by the libraries. -/
structure CoreProps where
  title : Option Str := none
  author : Option Str := none
  subject : Option Str := none
  created : Option Str := none
  modified : Option Str := none
deriving DecidableEq, Repr

/-- `PptxParser._extract_metadata`: base identity fields always present;
slide count and core properties only when the presentation opens. -/
def pptx_extract_metadata (filename : Str) (ft : FileType) (fsize : Nat) (fhash : Str)
    (lib : Option (List (List PptxShape))) (props : Option CoreProps) : DocumentMetadata :=
  let base : DocumentMetadata :=
    { filename := filename, file_type := ft, file_size := fsize, file_hash := fhash }
  match lib, props with
  | some slides, some p =>
    { base with slide_count := some slides.length, title := p.title, author := p.author,
                subject := p.subject, created_at := p.created, modified_at := p.modified }
  | some slides, none => { base with slide_count := some slides.length }
  | none, _ => base

/-- `PptxParser._parse_content`: the fatal `.ppt`-without-converter
branch, then extraction, metadata and the `success=True` envelope. -/
def pptx_parse_content (filename : Str) (pptConverted : Bool)
    (lib : Option (List (List PptxShape))) (props : Option CoreProps)
    (fsize : Nat) (fhash : Str) (cs co : Option Nat) : ParserResult :=
  let ft := detect_file_type filename
  if ft = FileType.ppt ∧ pptConverted = false then
    { success := false
      error := some "Cannot parse .ppt format without LibreOffice".toList
      warnings := ["Could not convert .ppt to .pptx".toList] }
  else
    let (slides_text, chunks, tables) := extract_with_pptx lib cs co
    let metadata := pptx_extract_metadata filename ft fsize fhash lib props
    { success := true
      metadata := some metadata
      content := some { full_text := slides_text, chunks := chunks, tables := tables } }

/-- One pdfplumber page: `extract_text() or ""` and `extract_tables()`. -/
structure PdfPage where
  text : Str
  tables : List (List (List Str)) := []
deriving DecidableEq, Repr

/-- The page loop of `PdfParser._extract_with_pdfplumber` (`n` is the
1-based `page_num`): pages whose text strips to nothing contribute no
chunk; a kept page yields `[Page n]`-prefixed text and a chunk with the
raw page text and `chunk_index = page_num - 1`; every non-empty table is
kept with its page and per-page index. -/
def pdfplumberPagesLoop : List PdfPage → Nat → List Str × List TextChunk × List PyTable
  | [], _ => ([], [], [])
  | p :: rest, n =>
    let (texts, chunks, tables) := pdfplumberPagesLoop rest (n + 1)
    let tablesHere := p.tables.enum.filterMap (fun (i, t) =>
      if t ≠ [] then some (PyTable.mk (.page n i) t) else none)
    if pyStrip p.text ≠ [] then
      (("[Page ".toList ++ natToStr n ++ [']', '\n'] ++ p.text) :: texts,
       { content := p.text, source := "page_".toList ++ natToStr n,
         chunk_index := n - 1, page_number := some n } :: chunks,
       tablesHere ++ tables)
    else (texts, chunks, tablesHere ++ tables)

/-- `PdfParser._extract_with_pdfplumber` (`none` models pdfplumber
unavailable or raising, which returns `("", [], [])`). -/
def extract_with_pdfplumber (lib : Option (List PdfPage))
    (cs co : Option Nat) : Str × List TextChunk × List PyTable :=
  match lib with
  | none => ([], [], [])
  | some pages =>
    let (texts, chunks, tables) := pdfplumberPagesLoop pages 1
    let full_text := joinSep "\n\n".toList texts
    let chunks := if optTruthy cs then chunk_text full_text "chunk".toList cs co else chunks
    (full_text, chunks, tables)

/-- `PdfParser._extract_with_pymupdf`: same page loop shape over
`page.get_text()` strings, with no table extraction. -/
def pymupdfPagesLoop : List Str → Nat → List Str × List TextChunk
  | [], _ => ([], [])
  | t :: rest, n =>
    let (texts, chunks) := pymupdfPagesLoop rest (n + 1)
    if pyStrip t ≠ [] then
      (("[Page ".toList ++ natToStr n ++ [']', '\n'] ++ t) :: texts,
       { content := t, source := "page_".toList ++ natToStr n,
         chunk_index := n - 1, page_number := some n } :: chunks)
    else (texts, chunks)

/-- `PdfParser._extract_with_pymupdf` (`none` models pymupdf unavailable
or raising). -/
def extract_with_pymupdf (lib : Option (List Str))
    (cs co : Option Nat) : Str × List TextChunk × List PyTable :=
  match lib with
  | none => ([], [], [])
  | some pages =>
    let (texts, chunks) := pymupdfPagesLoop pages 1
    let full_text := joinSep "\n\n".toList texts
    let chunks := if optTruthy cs then chunk_text full_text "chunk".toList cs co else chunks
    (full_text, chunks, [])

/-- `PdfParser._extract_links`: each page's link annotations contribute
their truthy `uri` values; the collected list is deduplicated through a
Python `set` (modelled by `List.dedup`; the set's enumeration order is
unspecified in Python, the deduplicated membership is what the claims
use). -/
def pdf_extract_links (lib : Option (List (List (Option Str)))) : List Str :=
  match lib with
  | none => []
  | some pages =>
    (pages.flatMap (fun page => page.filterMap (fun uri =>
      match uri with
      | some u => if pyTruthy u then some u else none
      | none => none))).dedup

/-- `PdfParser._extract_metadata`: identity fields always; page count and
document-info fields from pdfplumber when it opens, else from pymupdf
when that opens, else base metadata only. -/
def pdf_extract_metadata (filename : Str) (fsize : Nat) (fhash : Str)
    (plumberMeta mupdfMeta : Option (Nat × CoreProps)) : DocumentMetadata :=
  let base : DocumentMetadata :=
    { filename := filename, file_type := FileType.pdf, file_size := fsize, file_hash := fhash }
  match plumberMeta with
  | some (pc, p) =>
    { base with page_count := some pc, title := p.title, author := p.author,
                subject := p.subject, created_at := p.created, modified_at := p.modified }
  | none =>
    match mupdfMeta with
    | some (pc, p) =>
      { base with page_count := some pc, title := p.title, author := p.author,
                  subject := p.subject }
    | none => base

/-- `PdfParser._parse_content` (lines 86–140 of `pdf_parser.py`):
pdfplumber first, pymupdf only when that yields falsy text, a warning —
not an error — when both yield nothing, metadata and links extracted
independently, and an unconditional `success=True` envelope. -/
def pdf_parse_content (filename : Str) (plumber : Option (List PdfPage))
    (mupdf : Option (List Str)) (plumberMeta mupdfMeta : Option (Nat × CoreProps))
    (fitzLinks : Option (List (List (Option Str))))
    (fsize : Nat) (fhash : Str) (cs co : Option Nat) : ParserResult :=
  let (pages_text, chunks, tables) := extract_with_pdfplumber plumber cs co
  let (pages_text, chunks, tables, warnings) :=
    if pages_text = [] then
      let (t2, c2, tb2) := extract_with_pymupdf mupdf cs co
      if t2 = [] then (t2, c2, tb2, ["Could not extract text from PDF".toList])
      else (t2, c2, tb2, [])
    else (pages_text, chunks, tables, [])
  let metadata := pdf_extract_metadata filename fsize fhash plumberMeta mupdfMeta
  let links := pdf_extract_links fitzLinks
  { success := true
    metadata := some metadata
    content := some { full_text := pages_text, chunks := chunks, tables := tables, links := links }
    warnings := warnings }

/-- The `f"{col_name}: {cell}"` items of one CSV/sheet data row: blank
cells skipped, column names from the header row, `col_{j}` past its
end. -/
def csvRowText (header row : List Str) : List Str :=
  row.enum.filterMap (fun (j, cell) =>
    if pyStrip cell ≠ [] then
      some ((if h : j < header.length then header.get ⟨j, h⟩ else "col_".toList ++ natToStr j)
            ++ ": ".toList ++ cell)
    else none)

/-- The `text_rows` of `XlsxParser._parse_csv`: a `Headers:` line for row
0, then one `Row {i}:` line per data row with at least one non-blank
cell. -/
def csvTextRows (rows : List (List Str)) : List Str :=
  rows.enum.filterMap (fun (i, row) =>
    if i = 0 then some ("Headers: ".toList ++ joinSep " | ".toList row)
    else
      let rt := csvRowText (rows.headD []) row
      if rt ≠ [] then
        some ("Row ".toList ++ natToStr i ++ ": ".toList ++ joinSep ", ".toList rt)
      else none)

/-- `XlsxParser._parse_csv`: `none` rows model the (unreachable in
practice) full decode failure; empty row list is an explicit failure;
otherwise the key-value text rendering, a `csv_chunk` re-chunk, and a
`success=True` envelope with row/column counts in `custom`. -/
def parse_csv (rowsInput : Option (List (List Str))) (filename : Str)
    (fsize : Nat) (fhash : Str) (cs co : Option Nat) : ParserResult :=
  match rowsInput with
  | none => { success := false, error := some "Could not decode CSV file".toList }
  | some rows =>
    if rows = [] then { success := false, error := some "Empty CSV file".toList }
    else
      let header := rows.headD []
      let full_text := joinNl (csvTextRows rows)
      let chunks := chunk_text full_text "csv_chunk".toList cs co
      let metadata : DocumentMetadata :=
        { filename := filename, file_type := FileType.csv, file_size := fsize,
          file_hash := fhash,
          custom := [("row_count".toList, natToStr rows.length),
                     ("column_count".toList, natToStr header.length)] }
      { success := true
        metadata := some metadata
        content := some { full_text := full_text, chunks := chunks,
                          tables := [PyTable.mk (.sheet "data".toList) rows] } }

/-- The `[Sheet: name]` text block of `XlsxParser._extract_with_openpyxl`
for one sheet's non-empty rows. -/
def xlsxSheetText (name : Str) (sheet_rows : List (List Str)) : Str :=
  let header := sheet_rows.headD []
  let parts := ("[Sheet: ".toList ++ name ++ [']']) ::
    sheet_rows.enum.filterMap (fun (i, row) =>
      if i = 0 then some ("Headers: ".toList ++ joinSep " | ".toList row)
      else
        let rt := csvRowText header row
        if rt ≠ [] then some (joinSep ", ".toList rt) else none)
  joinNl parts

/-- The sheet loop of `XlsxParser._extract_with_openpyxl`: rows with no
non-`None` cell are dropped, remaining cells rendered with `str` (empty
for `None`); sheets left with no rows are skipped and — unlike the
pptx/pdf page loops — `chunk_idx` only advances for kept sheets. -/
def openpyxlLoop : List (Str × List (List (Option Str))) → Nat →
    List Str × List TextChunk × List PyTable
  | [], _ => ([], [], [])
  | (name, rawRows) :: rest, idx =>
    let sheet_rows := (rawRows.filter (fun r => r.any (fun c => c.isSome))).map
      (fun r => r.map (fun c => c.getD []))
    if sheet_rows ≠ [] then
      let st := xlsxSheetText name sheet_rows
      let (texts, chunks, tables) := openpyxlLoop rest (idx + 1)
      (st :: texts,
       { content := st, source := "sheet_".toList ++ name, chunk_index := idx } :: chunks,
       PyTable.mk (.sheet name) sheet_rows :: tables)
    else openpyxlLoop rest idx

/-- `XlsxParser._extract_with_openpyxl` (`none` models openpyxl
unavailable or raising). -/
def extract_with_openpyxl (lib : Option (List (Str × List (List (Option Str)))))
    (cs co : Option Nat) : Str × List TextChunk × List PyTable :=
  match lib with
  | none => ([], [], [])
  | some sheets =>
    let (texts, chunks, tables) := openpyxlLoop sheets 0
    let full_text := joinSep "\n\n".toList texts
    let chunks := if optTruthy cs then chunk_text full_text "chunk".toList cs co else chunks
    (full_text, chunks, tables)

/-- One pandas sheet as consumed by `_extract_with_pandas`: its name,
`df.empty`, the `df.to_string()` rendering, and the
`[df.columns] + df.values` row list. -/
structure PandasSheet where
  name : Str
  empty : Bool
  rendered : Str
  rows : List (List Str)
deriving DecidableEq, Repr

/-- The sheet loop of `XlsxParser._extract_with_pandas`: empty frames
skipped, one chunk per kept sheet, `chunk_idx` advancing per kept
sheet. -/
def pandasLoop : List PandasSheet → Nat → List Str × List TextChunk × List PyTable
  | [], _ => ([], [], [])
  | s :: rest, idx =>
    if s.empty then pandasLoop rest idx
    else
      let st := "[Sheet: ".toList ++ s.name ++ [']', '\n'] ++ s.rendered
      let (texts, chunks, tables) := pandasLoop rest (idx + 1)
      (st :: texts,
       { content := st, source := "sheet_".toList ++ s.name, chunk_index := idx } :: chunks,
       PyTable.mk (.sheet s.name) s.rows :: tables)

/-- `XlsxParser._extract_with_pandas` (`none` models pandas unavailable
or raising). -/
def extract_with_pandas (lib : Option (List PandasSheet))
    (cs co : Option Nat) : Str × List TextChunk × List PyTable :=
  match lib with
  | none => ([], [], [])
  | some sheets =>
    let (texts, chunks, tables) := pandasLoop sheets 0
    let full_text := joinSep "\n\n".toList texts
    let chunks := if optTruthy cs then chunk_text full_text "chunk".toList cs co else chunks
    (full_text, chunks, tables)

/-- `XlsxParser._extract_metadata`: identity fields always; sheet count
and workbook properties when openpyxl opens the file. -/
def xlsx_extract_metadata (filename : Str) (ft : FileType) (fsize : Nat) (fhash : Str)
    (wb : Option (Nat × CoreProps)) : DocumentMetadata :=
  let base : DocumentMetadata :=
    { filename := filename, file_type := ft, file_size := fsize, file_hash := fhash }
  match wb with
  | some (sc, p) =>
    { base with sheet_count := some sc, title := p.title, author := p.author,
                subject := p.subject, created_at := p.created, modified_at := p.modified }
  | none => base

/-- `XlsxParser._parse_content` (lines 88–155 of `xlsx_parser.py`): CSV
dispatch, the `.xls` convert-or-warn step, openpyxl with pandas fallback
when it yields falsy text, and an unconditional `success=True` envelope
for the Excel path. -/
def xlsx_parse_content (filename : Str) (csvRows : Option (List (List Str)))
    (xlsConverted : Bool) (openpyxlData : Option (List (Str × List (List (Option Str)))))
    (pandasData : Option (List PandasSheet)) (wbMeta : Option (Nat × CoreProps))
    (fsize : Nat) (fhash : Str) (cs co : Option Nat) : ParserResult :=
  let ft := detect_file_type filename
  if ft = FileType.csv then parse_csv csvRows filename fsize fhash cs co
  else
    let warnings :=
      if ft = FileType.xls ∧ xlsConverted = false
      then ["Could not convert .xls to .xlsx".toList] else []
    let (sheets_text, chunks, tables) := extract_with_openpyxl openpyxlData cs co
    let (sheets_text, chunks, tables) :=
      if sheets_text = [] then extract_with_pandas pandasData cs co
      else (sheets_text, chunks, tables)
    let metadata := xlsx_extract_metadata filename ft fsize fhash wbMeta
    { success := true
      metadata := some metadata
      content := some { full_text := sheets_text, chunks := chunks, tables := tables }
      warnings := warnings }

/-- The header values consumed by `EmlParser._create_email_chunks`:
`subject` is always present in the headers dict (possibly empty);
`from`/`to` are present only when the raw header was truthy; `dateLine`
is the rendered date (strftime of the parsed datetime, or the raw
string) present exactly when `headers.get("date")` is truthy. -/
structure EmailHeaders where
  subject : Str := []
  fromLine : Option Str := none
  toLine : Option Str := none
  dateLine : Option Str := none
deriving DecidableEq, Repr

/-- One attachment record from `EmlParser._extract_attachments`. -/
structure EmailAttachment where
  filename : Str
  content_type : Str
  size : Nat := 0
deriving DecidableEq, Repr

/-- The `header_parts` lines of `EmlParser._create_email_chunks`: one
line per truthy subject/from/to/date header value. -/
def emailHeaderParts (h : EmailHeaders) : List Str :=
  (if pyTruthy h.subject then ["Subject: ".toList ++ h.subject] else []) ++
  (match h.fromLine with
   | some s => if pyTruthy s then ["From: ".toList ++ s] else []
   | none => []) ++
  (match h.toLine with
   | some s => if pyTruthy s then ["To: ".toList ++ s] else []
   | none => []) ++
  (match h.dateLine with
   | some s => ["Date: ".toList ++ s]
   | none => [])

/-- The `"Attachments:\n..."` summary text of the attachment chunk. -/
def emailAttText (atts : List EmailAttachment) : Str :=
  "Attachments:\n".toList ++
    joinNl (atts.map (fun a =>
      "- ".toList ++ a.filename ++ " (".toList ++ a.content_type ++ [')']))

/-- `EmlParser._create_email_chunks`: at most one header-summary chunk at
index 0, then the body re-chunked through `chunk_text` with each chunk
re-indexed sequentially and given the subject as heading, then at most
one attachment-summary chunk; the single `chunk_idx` counter spans all
three categories. -/
def create_email_chunks (h : EmailHeaders) (body_text : Str)
    (atts : List EmailAttachment) (cs co : Option Nat) : List TextChunk :=
  let headerChunks : List TextChunk :=
    if emailHeaderParts h ≠ [] then
      [{ content := joinNl (emailHeaderParts h), source := "email_headers".toList,
         chunk_index := 0, heading := some "Email Headers".toList }]
    else []
  let idx1 := headerChunks.length
  let bodyChunks : List TextChunk :=
    if pyTruthy body_text then
      (chunk_text body_text "email_body".toList cs co).enum.map
        (fun (i, bc) => { bc with chunk_index := idx1 + i, heading := some h.subject })
    else []
  let idx2 := idx1 + bodyChunks.length
  let attChunks : List TextChunk :=
    if atts ≠ [] then
      [{ content := emailAttText atts, source := "email_attachments".toList,
         chunk_index := idx2, heading := some "Attachments".toList }]
    else []
  headerChunks ++ bodyChunks ++ attChunks

/-- The character class `[^\s<>"{}|\\^`\[\]]` of the e-mail URL regex:
characters allowed inside a matched URL body. -/
def urlAllowedChar (c : Char) : Bool :=
  ¬(c.isWhitespace ∨ c = '<' ∨ c = '>' ∨ c = '"' ∨ c = Char.ofNat 123 ∨
    c = Char.ofNat 125 ∨ c = '|' ∨ c = '\\' ∨ c = '^' ∨ c = Char.ofNat 96 ∨
    c = '[' ∨ c = ']')

/-- Fuelled left-to-right non-overlapping scan for
`re.findall(r'https?://[^\s<>"{}|\\^`\[\]]+', text)`: at each position
try the (greedy) `https://` then `http://` literal prefix, require at
least one allowed body character, and resume after the match. -/
def scanUrlsF : Nat → List Char → List Str
  | 0, _ => []
  | fuel + 1, l =>
    match l with
    | [] => []
    | _ :: rest =>
      if "https://".toList.isPrefixOf l then
        let body := (l.drop 8).takeWhile urlAllowedChar
        if body ≠ [] then
          ("https://".toList ++ body) :: scanUrlsF fuel ((l.drop 8).drop body.length)
        else scanUrlsF fuel rest
      else if "http://".toList.isPrefixOf l then
        let body := (l.drop 7).takeWhile urlAllowedChar
        if body ≠ [] then
          ("http://".toList ++ body) :: scanUrlsF fuel ((l.drop 7).drop body.length)
        else scanUrlsF fuel rest
      else scanUrlsF fuel rest

/-- `re.findall` of the e-mail URL pattern over a body text. -/
def findall_urls (s : Str) : List Str := scanUrlsF (s.length + 1) s

/-- Quote characters of the `href` regex (`"` or `'`). -/
def isQuote (c : Char) : Bool := c = '"' ∨ c = Char.ofNat 39

/-- Fuelled left-to-right non-overlapping scan for
`re.findall(r'href=["\']([^"\']+)["\']', html, re.IGNORECASE)`:
a case-insensitive `href=` literal, an opening quote, one-or-more
non-quote body characters, a closing quote of either kind; the captured
body is returned and scanning resumes after the match. -/
def findHrefsF : Nat → List Char → List Str
  | 0, _ => []
  | fuel + 1, l =>
    match l with
    | [] => []
    | _ :: rest =>
      if pyLower (l.take 5) = "href=".toList then
        match l.drop 5 with
        | q :: rest2 =>
          if isQuote q then
            let body := rest2.takeWhile (fun c => ¬ isQuote c)
            if body ≠ [] then
              match rest2.drop body.length with
              | q2 :: rest3 =>
                if isQuote q2 then body :: findHrefsF fuel rest3
                else findHrefsF fuel rest
              | [] => findHrefsF fuel rest
            else findHrefsF fuel rest
          else findHrefsF fuel rest
        | [] => findHrefsF fuel rest
      else findHrefsF fuel rest

/-- `re.findall` of the `href` pattern over an HTML body. -/
def findHrefs (s : Str) : List Str := findHrefsF (s.length + 1) s

/-- `EmlParser._extract_links`: URL-pattern matches from the plain-text
body, `href` values from the HTML body kept only when they start with
`http://` or `https://`, all collected into a Python `set` (modelled by
`List.dedup`; the set's enumeration order is unspecified in Python). -/
def eml_extract_links (body_text body_html : Str) : List Str :=
  let textLinks := if pyTruthy body_text then findall_urls body_text else []
  let htmlLinks :=
    if pyTruthy body_html then
      (findHrefs body_html).filter (fun m =>
        "http://".toList.isPrefixOf m || "https://".toList.isPrefixOf m)
    else []
  (textLinks ++ htmlLinks).dedup

/-- One event of the stdlib `html.parser.HTMLParser` tokenizer, which
drives `TextParser._extract_html`'s `TextExtractor` handler: the
tokenizer itself is the external library, the handler logic below is the
repository's code. -/
inductive HtmlEvent where
  | startTag (tag : Str) (attrs : List (Str × Option Str))
  | endTag (tag : Str)
  | data (txt : Str)
deriving DecidableEq, Repr

/-- The `skip_tags` set of `TextParser._extract_html`. -/
def htmlSkipTags : List Str :=
  ["script".toList, "style".toList, "noscript".toList, "head".toList]

/-- The block-level tags that force a newline in
`TextParser._extract_html`. -/
def htmlBlockTags : List Str :=
  ["p".toList, "div".toList, "br".toList, "h1".toList, "h2".toList, "h3".toList,
   "h4".toList, "h5".toList, "h6".toList, "li".toList, "tr".toList]

/-- The `TextExtractor` handler of `TextParser._extract_html`, folded
over the tokenizer's events: start tags enter skip mode for
script/style/head/noscript, append every truthy `href` attribute value
of an `<a>` tag to `links` unconditionally, and emit a newline part for
block tags; data outside skip mode contributes its stripped text. -/
def htmlExtractLoop : List HtmlEvent → Bool → List Str × List Str
  | [], _ => ([], [])
  | e :: rest, skip =>
    match e with
    | .startTag tag attrs =>
      let skip' := if tag ∈ htmlSkipTags then true else skip
      let newLinks := if tag = "a".toList then
          attrs.filterMap (fun (n, v) =>
            if n = "href".toList then
              match v with
              | some u => if pyTruthy u then some u else none
              | none => none
            else none)
        else []
      let newParts := if tag ∈ htmlBlockTags then [['\n']] else []
      let (ps, ls) := htmlExtractLoop rest skip'
      (newParts ++ ps, newLinks ++ ls)
    | .endTag tag =>
      let skip' := if tag ∈ htmlSkipTags then false else skip
      htmlExtractLoop rest skip'
    | .data txt =>
      let (ps, ls) := htmlExtractLoop rest skip
      if skip = false ∧ pyStrip txt ≠ [] then (pyStrip txt :: ps, ls) else (ps, ls)

/-- `re.sub(r'\s+', ' ', text)`: collapse every maximal whitespace run to
a single space (`inWs` remembers that the previous character was part of
a run already replaced). -/
def collapseWsAux : List Char → Bool → List Char
  | [], _ => []
  | c :: rest, inWs =>
    if c.isWhitespace then
      if inWs then collapseWsAux rest true else ' ' :: collapseWsAux rest true
    else c :: collapseWsAux rest false

/-- `TextParser._extract_html` over the tokenizer's events: join the
parts with single spaces, collapse whitespace runs (after which the
source's second `\n\s*\n` substitution is the identity, no newline
remaining), strip, and return the text with the collected links. -/
def text_extract_html (events : List HtmlEvent) : Str × List Str :=
  let (parts, links) := htmlExtractLoop events false
  let text := joinSep [' '] parts
  (pyStrip (collapseWsAux text false), links)

/-- One persisted document row together with its cascading chunk rows
(`documents` + `document_chunks`, owned as a unit by
`DocumentStorageService`). -/
structure StoredDoc where
  id : Nat
  file_hash : Str
  investigation_id : Option Str
  chunks : List TextChunk
deriving DecidableEq, Repr

/-- `DocumentStorageService._check_duplicate`: the first row whose
`file_hash` equals the given hash and whose `investigation_id` equals
the given collection (SQL `= $2` when given, `IS NULL` when absent). -/
def check_duplicate (db : List StoredDoc) (fhash : Str) (inv : Option Str) : Option Nat :=
  (db.find? (fun d => d.file_hash == fhash && d.investigation_id == inv)).map (fun d => d.id)

/-- `DocumentStorageService.delete_document`: `DELETE FROM documents
WHERE id = $1` with cascading chunks, reporting success iff the status
is exactly `DELETE 1`. -/
def delete_document (db : List StoredDoc) (docId : Nat) : List StoredDoc × Bool :=
  (db.filter (fun d => d.id ≠ docId), db.countP (fun d => d.id == docId) == 1)

/-- `DocumentStorageService.store_document` as a transition on the
persisted table: abort on parse failure or zero chunks, delete the
duplicate (hash, collection) match if one exists — aborting, with the
deletion kept, if the delete did not report `DELETE 1` — then insert the
new document with its chunk set in one transaction.  Parsing, hashing and
embedding are pure functions of the uploaded bytes, so the parse outcome
and hash arrive as arguments; `newId` is the generated row id. -/
def store_document (db : List StoredDoc) (parseOk : Bool) (chunks : List TextChunk)
    (fhash : Str) (inv : Option Str) (newId : Nat) : List StoredDoc × Option Nat :=
  if parseOk = false then (db, none)
  else if chunks = [] then (db, none)
  else
    match check_duplicate db fhash inv with
    | some ex =>
      let (db', ok) := delete_document db ex
      if ok = false then (db', none)
      else (db' ++ [⟨newId, fhash, inv, chunks⟩], some newId)
    | none => (db ++ [⟨newId, fhash, inv, chunks⟩], some newId)

/-- The paragraphs `DocxParser._extract_with_docx` retains: stripped text
of each paragraph whose text does not strip to nothing, paired with its
`Heading*`-style flag, in document order. -/
def docxRetained (paras : List DocxPara) : List (Str × Bool) :=
  paras.filterMap (fun p =>
    let t := pyStrip p.text
    if t = [] then none else some (t, isHeadingStyle p.style))

/-- The text of the most recent heading-flagged entry of `l`, falling
back to `h0` when `l` contains none. -/
def lastHeadingD (h0 : Option Str) (l : List (Str × Bool)) : Option Str :=
  match (l.filterMap (fun tb => if tb.2 then some tb.1 else none)).getLast? with
  | some h => some h
  | none => h0

/-- The chunk list the docx paragraph path should produce, written
positionally: the `i`-th retained paragraph becomes chunk `i`, carrying
as heading the most recent heading-styled paragraph at or before it. -/
def docxChunksSpec (paras : List DocxPara) : List TextChunk :=
  (docxRetained paras).enum.map (fun (i, tb) =>
    { content := tb.1, source := "paragraph_".toList ++ natToStr i, chunk_index := i,
      heading := lastHeadingD none ((docxRetained paras).take (i + 1)) })

/-- Total rendered length of a context-chunk list (the character budget
`to_text` accounts against). -/
def renderedLengthSum (chunks : List ContextChunk) : Nat :=
  (chunks.map (fun c => (renderContextChunk c).length)).sum

/-- Tokenizer events for the HTML input
`<p>Hello</p><a href="page.html">link</a><a href="page.html">link2</a>`. -/
def exHtmlEvents : List HtmlEvent :=
  [ .startTag "p".toList [], .data "Hello".toList, .endTag "p".toList,
    .startTag "a".toList [("href".toList, some "page.html".toList)],
    .data "link".toList, .endTag "a".toList,
    .startTag "a".toList [("href".toList, some "page.html".toList)],
    .data "link2".toList, .endTag "a".toList ]

/-! ## Helper lemmas -/

theorem length_dropWhile_le (p : Char → Bool) (l : List Char) :
    (l.dropWhile p).length ≤ l.length :=
  (List.dropWhile_sublist p).length_le

theorem pyStrip_length_le (s : Str) : (pyStrip s).length ≤ s.length := by
  unfold pyStrip
  rw [List.length_reverse]
  refine le_trans (length_dropWhile_le _ _) ?_
  rw [List.length_reverse]
  exact length_dropWhile_le _ _

theorem get_overlap_length_le (s : Str) (ov : Nat) (hov : 0 < ov) :
    (get_overlap s ov).length ≤ ov := by
  unfold get_overlap
  split
  · omega
  · rename_i hlen
    unfold pySliceLast
    rw [if_neg (by omega)]
    have hd : (s.drop (s.length - ov)).length = ov := by
      rw [List.length_drop]; omega
    dsimp only
    split
    · rename_i i _
      split
      · calc ((s.drop (s.length - ov)).drop (i + 1)).length
            ≤ (s.drop (s.length - ov)).length := by
              rw [List.length_drop]; omega
          _ = ov := hd
      · omega
    · omega

theorem orDefault_some_ne (n d : Nat) (h : n ≠ 0) : orDefault (some n) d = n := by
  simp [orDefault, h]

theorem chunkLoop_length_bound (pfx : Str) (size ov : Nat) (hov : 0 < ov)
    (P : Str → Prop) :
    ∀ (sents : List Str) (cur : Str) (idx : Nat),
      (∀ s ∈ sents, P s) →
      (cur.length ≤ size ∨ ∃ s, P s ∧ cur.length ≤ ov + s.length) →
      ∀ c ∈ chunkLoop pfx size ov sents cur idx,
        c.content.length ≤ size ∨ ∃ s, P s ∧ c.content.length ≤ ov + s.length := by
  intro sents
  induction sents with
  | nil =>
    intro cur idx _ hcur c hc
    unfold chunkLoop at hc
    split at hc
    · rcases List.mem_singleton.mp hc with rfl
      rcases hcur with h | ⟨s, hs, hb⟩
      · exact Or.inl (le_trans (pyStrip_length_le cur) h)
      · exact Or.inr ⟨s, hs, le_trans (pyStrip_length_le cur) hb⟩
    · exact absurd hc (List.not_mem_nil c)
  | cons s rest ih =>
    intro cur idx hmem hcur c hc
    unfold chunkLoop at hc
    split at hc
    · rename_i hcond
      rcases List.mem_cons.mp hc with rfl | hc'
      · rcases hcur with h | ⟨u, hu, hb⟩
        · exact Or.inl (le_trans (pyStrip_length_le cur) h)
        · exact Or.inr ⟨u, hu, le_trans (pyStrip_length_le cur) hb⟩
      · refine ih (get_overlap cur ov ++ s) (idx + 1)
          (fun u hu => hmem u (List.mem_cons_of_mem s hu)) ?_ c hc'
        refine Or.inr ⟨s, hmem s (List.mem_cons_self s rest), ?_⟩
        rw [List.length_append]
        exact Nat.add_le_add_right (get_overlap_length_le cur ov hov) s.length
    · rename_i hcond
      refine ih (cur ++ s) idx
        (fun u hu => hmem u (List.mem_cons_of_mem s hu)) ?_ c hc
      by_cases hcur0 : cur = []
      · subst hcur0
        refine Or.inr ⟨s, hmem s (List.mem_cons_self s rest), ?_⟩
        simp
      · have : ¬ (cur.length + s.length > size) := fun hgt => hcond ⟨hcur0, hgt⟩
        exact Or.inl (by rw [List.length_append]; omega)

/-- Claim C2, amended: with a positive `chunk_overlap` smaller than
`chunk_size`, every chunk `chunk_text` emits either fits in `chunk_size`
or is bounded by `chunk_overlap` plus the length of one sentence unit
(the chunk seeded from the previous chunk's overlap tail plus a sentence
that immediately overflowed, or a lone over-long sentence). -/
theorem chunk_text_length_bound (text pfx : Str) (size ov : Nat)
    (hov : 0 < ov) (hlt : ov < size) :
    ∀ c ∈ chunk_text text pfx (some size) (some ov),
      c.content.length ≤ size ∨
      ∃ s ∈ split_sentences text, c.content.length ≤ ov + s.length := by
  intro c hc
  simp only [chunk_text, orDefault_some_ne size default_chunk_size (by omega),
    orDefault_some_ne ov default_chunk_overlap (by omega)] at hc
  split at hc
  · exact absurd hc (List.not_mem_nil c)
  · have := chunkLoop_length_bound pfx size ov hov
      (fun s => s ∈ split_sentences text) (split_sentences text) [] 0
      (fun s hs => hs) (Or.inl (by simp)) c hc
    rcases this with h | ⟨s, hs, hb⟩
    · exact Or.inl h
    · exact Or.inr ⟨s, hs, hb⟩

/-- Claim C2, counterexample: with `chunk_size = 10`, `chunk_overlap = 5`
and text `"aaaab cd. dddddddd. e."`, no sentence unit exceeds the chunk
size, yet the middle emitted chunk (`"cd. dddddddd."`, seeded from the
overlap tail `" cd. "` plus the next sentence) has length 13 > 10 —
refuting "each chunk has content length at most chunk_size, except when
a single sentence-unit alone exceeds chunk_size, in which case that
chunk's length equals that sentence's length". -/
theorem chunk_text_length_claim_false :
    ¬ (∀ c ∈ chunk_text "aaaab cd. dddddddd. e.".toList "chunk".toList (some 10) (some 5),
        c.content.length ≤ 10 ∨
        ∃ s ∈ split_sentences "aaaab cd. dddddddd. e.".toList,
          10 < s.length ∧ c.content.length = s.length) := by decide

/-- Claim C2, witness: the amended bound evaluated at the counterexample
text with `chunk_size = 10 > chunk_overlap = 5 > 0`. -/
theorem chunk_text_length_bound_witness :
    (0 < 5 ∧ 5 < 10) ∧
    ∀ c ∈ chunk_text "aaaab cd. dddddddd. e.".toList "chunk".toList (some 10) (some 5),
      c.content.length ≤ 10 ∨
      ∃ s ∈ split_sentences "aaaab cd. dddddddd. e.".toList, c.content.length ≤ 5 + s.length :=
  ⟨by decide, chunk_text_length_bound "aaaab cd. dddddddd. e.".toList "chunk".toList 10 5
    (by decide) (by decide)⟩

theorem chunkLoop_map_index (pfx : Str) (size ov : Nat) :
    ∀ (sents : List Str) (cur : Str) (idx : Nat),
      (chunkLoop pfx size ov sents cur idx).map TextChunk.chunk_index =
        List.range' idx (chunkLoop pfx size ov sents cur idx).length := by
  intro sents
  induction sents with
  | nil =>
    intro cur idx
    unfold chunkLoop
    split
    · simp [List.range']
    · simp
  | cons s rest ih =>
    intro cur idx
    unfold chunkLoop
    split
    · simp only [List.map_cons, List.length_cons]
      rw [List.range'_succ, ih]
    · exact ih _ _

theorem chunk_text_map_index (text pfx : Str) (cs co : Option Nat) :
    (chunk_text text pfx cs co).map TextChunk.chunk_index =
      List.range (chunk_text text pfx cs co).length := by
  simp only [chunk_text]
  split
  · simp
  · rw [List.range_eq_range']
    exact chunkLoop_map_index pfx _ _ _ [] 0

theorem map_index_append_range (A B C : List TextChunk)
    (ha : A.map TextChunk.chunk_index = List.range' 0 A.length)
    (hb : B.map TextChunk.chunk_index = List.range' A.length B.length)
    (hc : C.map TextChunk.chunk_index = List.range' (A.length + B.length) C.length) :
    (A ++ B ++ C).map TextChunk.chunk_index = List.range (A ++ B ++ C).length := by
  have h1 : List.range' 0 A.length ++ List.range' A.length B.length =
      List.range' 0 (A.length + B.length) := by
    have := List.range'_append 0 A.length B.length 1
    simpa [Nat.add_comm] using this
  have h2 : List.range' 0 (A.length + B.length) ++
      List.range' (A.length + B.length) C.length =
      List.range' 0 (A.length + B.length + C.length) := by
    have := List.range'_append 0 (A.length + B.length) C.length 1
    simpa [Nat.add_comm] using this
  rw [List.map_append, List.map_append, ha, hb, hc, h1, h2]
  rw [List.range_eq_range']
  congr 1
  simp [List.length_append, Nat.add_assoc]


theorem reindexed_map_index (l : List TextChunk) (idx1 : Nat) (subj : Str) :
    ((l.enum.map (fun (i, bc) =>
        { bc with chunk_index := idx1 + i, heading := some subj })).map
      TextChunk.chunk_index) = List.range' idx1 l.length := by
  rw [List.map_map]
  have hcomp : (TextChunk.chunk_index ∘ fun ((i, bc) : Nat × TextChunk) =>
      ({ bc with chunk_index := idx1 + i, heading := some subj } : TextChunk)) =
      (fun n => idx1 + n) ∘ Prod.fst := rfl
  rw [hcomp, ← List.map_map, List.enum_map_fst, ← List.range'_eq_map_range]

theorem create_email_chunks_map_index (h : EmailHeaders) (body : Str)
    (atts : List EmailAttachment) (cs co : Option Nat) :
    (create_email_chunks h body atts cs co).map TextChunk.chunk_index =
      List.range (create_email_chunks h body atts cs co).length := by
  unfold create_email_chunks
  dsimp only
  apply map_index_append_range
  · split
    · simp [List.range'_one]
    · simp
  · split
    · rw [reindexed_map_index]
      congr 1
      simp
    · simp
  · split
    · simp [List.range'_one]
    · simp

theorem pptxSlidesLoop_index_sublist :
    ∀ (slides : List (List PptxShape)) (n : Nat), 1 ≤ n →
      ((pptxSlidesLoop slides n).2.1.map TextChunk.chunk_index).Sublist
        (List.range' (n - 1) slides.length) := by
  intro slides
  induction slides with
  | nil => intro n _; simp [pptxSlidesLoop]
  | cons shapes rest ih =>
    intro n hn
    unfold pptxSlidesLoop
    dsimp only
    split
    · simp only [List.map_cons, List.length_cons]
      rw [List.range'_succ]
      have hstep : n - 1 + 1 = (n + 1) - 1 := by omega
      refine List.Sublist.cons₂ _ ?_
      rw [hstep]
      exact ih (n + 1) (by omega)
    · simp only [List.length_cons]
      rw [List.range'_succ]
      refine List.Sublist.cons _ ?_
      have hstep : n - 1 + 1 = (n + 1) - 1 := by omega
      rw [hstep]
      exact ih (n + 1) (by omega)

theorem pptxSlidesLoop_index_all :
    ∀ (slides : List (List PptxShape)) (n : Nat), 1 ≤ n →
      (∀ shapes ∈ slides, (pptxShapesLoop shapes).1 ≠ []) →
      (pptxSlidesLoop slides n).2.1.map TextChunk.chunk_index =
        List.range' (n - 1) slides.length ∧
      (pptxSlidesLoop slides n).2.1.length = slides.length := by
  intro slides
  induction slides with
  | nil => intro n _ _; simp [pptxSlidesLoop]
  | cons shapes rest ih =>
    intro n hn hall
    unfold pptxSlidesLoop
    dsimp only
    rw [if_pos (hall shapes (List.mem_cons_self shapes rest))]
    have hrec := ih (n + 1) (by omega)
      (fun sh hsh => hall sh (List.mem_cons_of_mem shapes hsh))
    simp only [List.map_cons, List.length_cons]
    rw [List.range'_succ]
    constructor
    · have hstep : n - 1 + 1 = (n + 1) - 1 := by omega
      rw [hstep, hrec.1]
    · rw [hrec.2]


/-- Claim C3, amended: `chunk_text` output and e-mail chunk lists always
carry chunk_index values exactly `0..n-1` in emission order, and a
`chunk_size` re-chunk recomputes that sequence from scratch; the pptx
slide extractor, however, indexes chunks by `slide_num - 1` over kept
slides only, so its indices are strictly increasing but contiguous from
0 only when every slide contributes text (or when a re-chunk is
triggered). -/
theorem chunk_index_contiguity :
    (∀ (text pfx : Str) (cs co : Option Nat),
       (chunk_text text pfx cs co).map TextChunk.chunk_index =
         List.range (chunk_text text pfx cs co).length) ∧
    (∀ (h : EmailHeaders) (body : Str) (atts : List EmailAttachment) (cs co : Option Nat),
       (create_email_chunks h body atts cs co).map TextChunk.chunk_index =
         List.range (create_email_chunks h body atts cs co).length) ∧
    (∀ (slides : List (List PptxShape)) (cs co : Option Nat),
       (((extract_with_pptx (some slides) cs co).2.1).map TextChunk.chunk_index).Pairwise
         (· < ·)) ∧
    (∀ (slides : List (List PptxShape)) (cs co : Option Nat),
       (∀ shapes ∈ slides, (pptxShapesLoop shapes).1 ≠ []) →
       ((extract_with_pptx (some slides) cs co).2.1).map TextChunk.chunk_index =
         List.range ((extract_with_pptx (some slides) cs co).2.1).length) := by
  refine ⟨chunk_text_map_index, create_email_chunks_map_index, ?_, ?_⟩
  · intro slides cs co
    have hsub := pptxSlidesLoop_index_sublist slides 1 le_rfl
    have hpair : ((pptxSlidesLoop slides 1).2.1.map TextChunk.chunk_index).Pairwise (· < ·) :=
      List.Pairwise.sublist hsub (List.pairwise_lt_range' _ _)
    unfold extract_with_pptx
    dsimp only
    split
    · split
      · rw [chunk_text_map_index]
        exact List.pairwise_lt_range _
      · exact hpair
    · exact hpair
  · intro slides cs co hall
    have hallidx := pptxSlidesLoop_index_all slides 1 le_rfl hall
    unfold extract_with_pptx
    dsimp only
    split
    · split
      · exact chunk_text_map_index _ _ _ _
      · rw [hallidx.1, hallidx.2, List.range_eq_range']
    · rw [hallidx.1, hallidx.2, List.range_eq_range']

/-- Claim C3, counterexample: a pptx deck whose first slide has no text
parses with `success=True` and non-empty extracted text, yet its one
chunk carries `chunk_index = 1` (slide 2, zero-based), not the
contiguous sequence `[0]` the claim requires. -/
theorem chunk_index_contiguity_counterexample :
    (pptx_parse_content "deck.pptx".toList true
        (some [[], [{ text_frame := some ["Hello".toList] }]]) none 4 "h".toList
        (some 1000) (some 200)).success = true ∧
    ((pptx_parse_content "deck.pptx".toList true
        (some [[], [{ text_frame := some ["Hello".toList] }]]) none 4 "h".toList
        (some 1000) (some 200)).content.map DocumentContent.full_text) =
      some "[Slide 2]\nHello".toList ∧
    ((pptx_parse_content "deck.pptx".toList true
        (some [[], [{ text_frame := some ["Hello".toList] }]]) none 4 "h".toList
        (some 1000) (some 200)).content.map
      (fun c => c.chunks.map TextChunk.chunk_index)) = some [1] ∧
    [1] ≠ List.range 1 := by decide

/-- Claim C3, witness: the amended statement evaluated on concrete
inputs — a two-sentence text, an e-mail with subject/body/attachment,
and a two-slide deck in which every slide has text. -/
theorem chunk_index_contiguity_witness :
    ((chunk_text "One two. Three four.".toList "chunk".toList (some 12) (some 4)).map
        TextChunk.chunk_index =
      List.range (chunk_text "One two. Three four.".toList "chunk".toList
        (some 12) (some 4)).length) ∧
    ((create_email_chunks { subject := "Hi".toList, fromLine := some "a@b.c".toList }
        "Body text.".toList [{ filename := "f.txt".toList, content_type := "text/plain".toList }]
        (some 1000) (some 200)).map TextChunk.chunk_index =
      List.range (create_email_chunks { subject := "Hi".toList, fromLine := some "a@b.c".toList }
        "Body text.".toList [{ filename := "f.txt".toList, content_type := "text/plain".toList }]
        (some 1000) (some 200)).length) ∧
    (∀ shapes ∈ [[({ text_frame := some ["A".toList] } : PptxShape)],
                 [({ text_frame := some ["B".toList] } : PptxShape)]],
       (pptxShapesLoop shapes).1 ≠ []) ∧
    ((extract_with_pptx (some [[{ text_frame := some ["A".toList] }],
        [{ text_frame := some ["B".toList] }]]) (some 1000) (some 200)).2.1.map
      TextChunk.chunk_index =
      List.range ((extract_with_pptx (some [[{ text_frame := some ["A".toList] }],
        [{ text_frame := some ["B".toList] }]]) (some 1000) (some 200)).2.1).length) :=
  ⟨chunk_index_contiguity.1 _ _ _ _,
   chunk_index_contiguity.2.1 _ _ _ _ _,
   by decide,
   chunk_index_contiguity.2.2.2 _ _ _ (by decide)⟩

theorem parse_csv_success_implies (rowsInput : Option (List (List Str))) (filename : Str)
    (fsize : Nat) (fhash : Str) (cs co : Option Nat)
    (h : (parse_csv rowsInput filename fsize fhash cs co).success = true) :
    (parse_csv rowsInput filename fsize fhash cs co).metadata.isSome = true ∧
    (parse_csv rowsInput filename fsize fhash cs co).content.isSome = true := by
  unfold parse_csv at h ⊢
  cases rowsInput with
  | none => simp at h
  | some rows =>
    dsimp only at h ⊢
    by_cases hr : rows = []
    · rw [if_pos hr] at h
      simp at h
    · rw [if_neg hr] at h ⊢
      exact ⟨rfl, rfl⟩

/-- Claim C1, amended: a `success=True` result from the PDF and XLSX
extractors always carries non-null metadata and non-null content, but
its chunk list may be empty — when no text is extractable both return
`success=True` with zero chunks and only a warning (see the
counterexample); the "zero chunks is a failure" rule is enforced one
layer up, by `store_document`, which aborts on an empty chunk list. -/
theorem success_implies_metadata_content :
    (∀ (filename : Str) (plumber : Option (List PdfPage)) (mupdf : Option (List Str))
       (pm mm : Option (Nat × CoreProps)) (fitz : Option (List (List (Option Str))))
       (fsize : Nat) (fhash : Str) (cs co : Option Nat),
       (pdf_parse_content filename plumber mupdf pm mm fitz fsize fhash cs co).success = true →
       (pdf_parse_content filename plumber mupdf pm mm fitz fsize fhash cs co).metadata.isSome = true ∧
       (pdf_parse_content filename plumber mupdf pm mm fitz fsize fhash cs co).content.isSome = true) ∧
    (∀ (filename : Str) (csvRows : Option (List (List Str))) (xlsConverted : Bool)
       (od : Option (List (Str × List (List (Option Str))))) (pd : Option (List PandasSheet))
       (wb : Option (Nat × CoreProps)) (fsize : Nat) (fhash : Str) (cs co : Option Nat),
       (xlsx_parse_content filename csvRows xlsConverted od pd wb fsize fhash cs co).success = true →
       (xlsx_parse_content filename csvRows xlsConverted od pd wb fsize fhash cs co).metadata.isSome = true ∧
       (xlsx_parse_content filename csvRows xlsConverted od pd wb fsize fhash cs co).content.isSome = true) ∧
    (∀ (db : List StoredDoc) (ok : Bool) (fhash : Str) (inv : Option Str) (newId : Nat),
       store_document db ok [] fhash inv newId = (db, none)) := by
  refine ⟨?_, ?_, ?_⟩
  · intro filename plumber mupdf pm mm fitz fsize fhash cs co _
    constructor <;> simp [pdf_parse_content]
  · intro filename csvRows xlsConverted od pd wb fsize fhash cs co h
    unfold xlsx_parse_content at h ⊢
    by_cases hft : detect_file_type filename = FileType.csv
    · rw [if_pos hft] at h ⊢
      exact parse_csv_success_implies _ _ _ _ _ _ h
    · rw [if_neg hft]
      constructor <;> simp
  · intro db ok fhash inv newId
    unfold store_document
    by_cases hok : ok = false
    · rw [if_pos hok]
    · rw [if_neg hok, if_pos rfl]

/-- Claim C1, counterexample: a PDF from which neither pdfplumber nor
pymupdf extracts any text yields `success=True` with an empty chunk
list and only a warning — refuting "a ParserResult with success=true
and an empty content.chunks list is never returned". -/
theorem success_nonempty_chunks_claim_false :
    (pdf_parse_content "doc.pdf".toList none none none none none 10 "h".toList
        (some 1000) (some 200)).success = true ∧
    ((pdf_parse_content "doc.pdf".toList none none none none none 10 "h".toList
        (some 1000) (some 200)).content.map DocumentContent.chunks) = some [] ∧
    (pdf_parse_content "doc.pdf".toList none none none none none 10 "h".toList
        (some 1000) (some 200)).warnings =
      ["Could not extract text from PDF".toList] := by decide

/-- Claim C1, witness: the amended statement at a concrete successful
PDF parse, a concrete successful CSV parse, and a concrete empty-chunk
store rejection. -/
theorem success_implies_metadata_content_witness :
    ((pdf_parse_content "doc.pdf".toList (some [{ text := "Hi there.".toList }]) none
        none none none 10 "h".toList none none).success = true →
     (pdf_parse_content "doc.pdf".toList (some [{ text := "Hi there.".toList }]) none
        none none none 10 "h".toList none none).metadata.isSome = true ∧
     (pdf_parse_content "doc.pdf".toList (some [{ text := "Hi there.".toList }]) none
        none none none 10 "h".toList none none).content.isSome = true) ∧
    ((xlsx_parse_content "t.csv".toList (some [["a".toList, "b".toList]]) true none none
        none 3 "h".toList none none).success = true →
     (xlsx_parse_content "t.csv".toList (some [["a".toList, "b".toList]]) true none none
        none 3 "h".toList none none).metadata.isSome = true ∧
     (xlsx_parse_content "t.csv".toList (some [["a".toList, "b".toList]]) true none none
        none 3 "h".toList none none).content.isSome = true) ∧
    store_document [] true [] "h".toList none 7 = ([], none) :=
  ⟨success_implies_metadata_content.1 _ _ _ _ _ _ _ _ _ _,
   success_implies_metadata_content.2.1 _ _ _ _ _ _ _ _ _ _,
   success_implies_metadata_content.2.2 _ _ _ _ _⟩

theorem two_mem_two_le_countP {α : Type} (p : α → Bool) {l : List α} {a b : α}
    (ha : a ∈ l) (hb : b ∈ l) (hne : a ≠ b) (hpa : p a = true) (hpb : p b = true) :
    2 ≤ l.countP p := by
  obtain ⟨s, t, rfl⟩ := List.append_of_mem ha
  rw [List.countP_append, List.countP_cons, hpa, if_pos rfl]
  have hb' : b ∈ s ∨ b ∈ t := by
    rcases List.mem_append.mp hb with h | h
    · exact Or.inl h
    · rcases List.mem_cons.mp h with rfl | h
      · exact absurd rfl hne
      · exact Or.inr h
  rcases hb' with h | h
  · have h1 : 0 < s.countP p := List.countP_pos_iff.mpr ⟨b, h, hpb⟩
    omega
  · have h1 : 0 < t.countP p := List.countP_pos_iff.mpr ⟨b, h, hpb⟩
    omega

theorem countP_remove_id (db : List StoredDoc) (m : StoredDoc) (p : StoredDoc → Bool)
    (hmem : m ∈ db) (hcount : db.countP p ≤ 1) (hpm : p m = true) :
    (db.filter (fun d => d.id ≠ m.id)).countP p = 0 := by
  rw [List.countP_eq_zero]
  intro d hd hpd
  have hd' := List.mem_filter.mp hd
  have hid : d.id ≠ m.id := by simpa using hd'.2
  have hne : d ≠ m := fun he => hid (congrArg StoredDoc.id he)
  have := two_mem_two_le_countP p hd'.1 hmem hne hpd hpm
  omega

theorem countP_id_eq_one (db : List StoredDoc) (m : StoredDoc)
    (hmem : m ∈ db) (hnodup : (db.map StoredDoc.id).Nodup) :
    db.countP (fun d => d.id == m.id) = 1 := by
  have h1 : List.count m.id (db.map StoredDoc.id) = 1 :=
    List.count_eq_one_of_mem hnodup (List.mem_map_of_mem StoredDoc.id hmem)
  calc db.countP (fun d => d.id == m.id)
      = (db.map StoredDoc.id).countP (fun x => x == m.id) := by
        rw [List.countP_map]; rfl
    _ = List.count m.id (db.map StoredDoc.id) := (List.count_eq_countP m.id _).symm
    _ = 1 := h1

theorem store_document_step (db : List StoredDoc) (chunks : List TextChunk)
    (fhash : Str) (inv : Option Str) (newId : Nat)
    (hchunks : chunks ≠ [])
    (hnodup : (db.map StoredDoc.id).Nodup)
    (hcount : db.countP (fun d => d.file_hash == fhash && d.investigation_id == inv) ≤ 1)
    (hfresh : ∀ d ∈ db, d.id ≠ newId) :
    ((store_document db true chunks fhash inv newId).1.countP
       (fun d => d.file_hash == fhash && d.investigation_id == inv) = 1) ∧
    (((store_document db true chunks fhash inv newId).1.map StoredDoc.id).Nodup) ∧
    (∀ d ∈ (store_document db true chunks fhash inv newId).1,
       d ∈ db ∨ d = ⟨newId, fhash, inv, chunks⟩) ∧
    (∀ d ∈ (store_document db true chunks fhash inv newId).1,
       (d.file_hash == fhash && d.investigation_id == inv) = true →
       d = ⟨newId, fhash, inv, chunks⟩) := by
  unfold store_document
  rw [if_neg (by simp : ¬(true = false)), if_neg hchunks]
  cases hdup : check_duplicate db fhash inv with
  | none =>
    have hf : db.find? (fun d => d.file_hash == fhash && d.investigation_id == inv) = none := by
      unfold check_duplicate at hdup
      cases hfind : db.find? (fun d => d.file_hash == fhash && d.investigation_id == inv) with
      | none => rfl
      | some m => rw [hfind] at hdup; simp at hdup
    have hall := List.find?_eq_none.mp hf
    have hc0 : db.countP (fun d => d.file_hash == fhash && d.investigation_id == inv) = 0 :=
      List.countP_eq_zero.mpr hall
    dsimp only
    refine ⟨?_, ?_, ?_, ?_⟩
    · rw [List.countP_append, hc0]; simp
    · rw [List.map_append]
      refine List.nodup_append.mpr ⟨hnodup, by simp, ?_⟩
      intro a ha hb
      obtain ⟨d, hd, rfl⟩ := List.mem_map.mp ha
      simp only [List.map_cons, List.map_nil, List.mem_singleton] at hb
      exact hfresh d hd hb
    · intro d hd
      rcases List.mem_append.mp hd with h | h
      · exact Or.inl h
      · exact Or.inr (List.mem_singleton.mp h)
    · intro d hd hp
      rcases List.mem_append.mp hd with h | h
      · exact absurd hp (hall d h)
      · exact List.mem_singleton.mp h
  | some ex =>
    obtain ⟨m, hfind, hex⟩ : ∃ m,
        db.find? (fun d => d.file_hash == fhash && d.investigation_id == inv) = some m ∧
        m.id = ex := by
      unfold check_duplicate at hdup
      cases hfind : db.find? (fun d => d.file_hash == fhash && d.investigation_id == inv) with
      | none => rw [hfind] at hdup; simp at hdup
      | some m =>
        rw [hfind] at hdup
        exact ⟨m, rfl, by simpa using hdup⟩
    have hpm := List.find?_some hfind
    have hmem := List.mem_of_find?_eq_some hfind
    subst hex
    simp only [delete_document]
    rw [countP_id_eq_one db m hmem hnodup]
    rw [if_neg (by simp : ¬((1 == 1) = false))]
    dsimp only
    have hcf : (db.filter (fun d => d.id ≠ m.id)).countP
        (fun d => d.file_hash == fhash && d.investigation_id == inv) = 0 :=
      countP_remove_id db m _ hmem hcount hpm
    have hsubmem : ∀ d ∈ db.filter (fun d => d.id ≠ m.id), d ∈ db :=
      fun d hd => (List.mem_filter.mp hd).1
    refine ⟨?_, ?_, ?_, ?_⟩
    · rw [List.countP_append, hcf]; simp
    · rw [List.map_append]
      refine List.nodup_append.mpr
        ⟨List.Nodup.sublist ((List.filter_sublist db).map StoredDoc.id) hnodup, by simp, ?_⟩
      intro a ha hb
      obtain ⟨d, hd, rfl⟩ := List.mem_map.mp ha
      simp only [List.map_cons, List.map_nil, List.mem_singleton] at hb
      exact hfresh d (hsubmem d hd) hb
    · intro d hd
      rcases List.mem_append.mp hd with h | h
      · exact Or.inl (hsubmem d h)
      · exact Or.inr (List.mem_singleton.mp h)
    · intro d hd hp
      rcases List.mem_append.mp hd with h | h
      · exact absurd hp (List.countP_eq_zero.mp hcf d h)
      · exact List.mem_singleton.mp h

/-- Claim C4: starting from a store with unique row ids and at most one
document for the (content hash, collection) key — the invariant
`store_document` itself maintains — storing the same successfully parsed
bytes twice into the same collection leaves exactly one persisted
document (with its chunk set) for that hash and collection: the second
upload deletes the first upload's row in full and inserts its own, so
the one surviving match carries the second upload's id and chunks. -/
theorem store_document_idempotent (db : List StoredDoc) (chunks : List TextChunk)
    (fhash : Str) (inv : Option Str) (id1 id2 : Nat)
    (hchunks : chunks ≠ [])
    (hnodup : (db.map StoredDoc.id).Nodup)
    (hcount : db.countP (fun d => d.file_hash == fhash && d.investigation_id == inv) ≤ 1)
    (hfresh1 : ∀ d ∈ db, d.id ≠ id1) (hfresh2 : ∀ d ∈ db, d.id ≠ id2)
    (hne : id1 ≠ id2) :
    ((store_document (store_document db true chunks fhash inv id1).1
        true chunks fhash inv id2).1.countP
      (fun d => d.file_hash == fhash && d.investigation_id == inv) = 1) ∧
    (∀ d ∈ (store_document (store_document db true chunks fhash inv id1).1
        true chunks fhash inv id2).1,
      (d.file_hash == fhash && d.investigation_id == inv) = true →
      d = ⟨id2, fhash, inv, chunks⟩) := by
  obtain ⟨hc1, hn1, hm1, _⟩ :=
    store_document_step db chunks fhash inv id1 hchunks hnodup hcount hfresh1
  have hfresh2' : ∀ d ∈ (store_document db true chunks fhash inv id1).1, d.id ≠ id2 := by
    intro d hd
    rcases hm1 d hd with h | rfl
    · exact hfresh2 d h
    · exact hne
  obtain ⟨hc2, _, _, hp2⟩ :=
    store_document_step (store_document db true chunks fhash inv id1).1 chunks fhash inv id2
      hchunks hn1 (by omega) hfresh2'
  exact ⟨hc2, hp2⟩

/-- Claim C4, witness: two stores of the same one-chunk parse into an
empty store with collection `some "inv"` leave exactly one matching
document, the second upload's. -/
theorem store_document_idempotent_witness :
    (((store_document (store_document [] true
        [⟨"Hi".toList, "chunk_0".toList, 0, none, none⟩] "hash1".toList
        (some "inv".toList) 1).1 true
        [⟨"Hi".toList, "chunk_0".toList, 0, none, none⟩] "hash1".toList
        (some "inv".toList) 2).1.countP
      (fun d => d.file_hash == "hash1".toList && d.investigation_id == some "inv".toList)) = 1) ∧
    (∀ d ∈ (store_document (store_document [] true
        [⟨"Hi".toList, "chunk_0".toList, 0, none, none⟩] "hash1".toList
        (some "inv".toList) 1).1 true
        [⟨"Hi".toList, "chunk_0".toList, 0, none, none⟩] "hash1".toList
        (some "inv".toList) 2).1,
      (d.file_hash == "hash1".toList && d.investigation_id == some "inv".toList) = true →
      d = ⟨2, "hash1".toList, some "inv".toList,
        [⟨"Hi".toList, "chunk_0".toList, 0, none, none⟩]⟩) :=
  store_document_idempotent []
    [⟨"Hi".toList, "chunk_0".toList, 0, none, none⟩] "hash1".toList
    (some "inv".toList) 1 2
    (by decide) (by decide) (by decide) (by decide) (by decide) (by decide)

theorem char_toNat_ofNat_valid (n : Nat) (h1 : 97 ≤ n) (h2 : n ≤ 122) :
    (Char.ofNat n).toNat = n := by
  unfold Char.ofNat
  rw [dif_pos (Or.inl (by omega))]
  rfl

theorem toLower_eq_dot_iff (c : Char) : Char.toLower c = '.' ↔ c = '.' := by
  constructor
  · intro h
    unfold Char.toLower at h
    dsimp only at h
    split at h
    · rename_i hr
      exfalso
      have h46 : ('.' : Char).toNat = 46 := rfl
      have hc := congrArg Char.toNat h
      rw [char_toNat_ofNat_valid (c.toNat + 32) (by omega) (by omega), h46] at hc
      omega
    · exact h
  · intro h
    subst h
    decide

theorem findIdx?_clean_append (p : Char → Bool) (l2 : List Char) (a : Char)
    (hpa : p a = true) :
    ∀ (l1 : List Char) (i : Nat), (∀ x ∈ l1, p x = false) →
      List.findIdx? p (l1 ++ a :: l2) i = some (i + l1.length) := by
  intro l1
  induction l1 with
  | nil =>
    intro i _
    simp [List.findIdx?_cons, hpa]
  | cons x xs ih =>
    intro i hall
    rw [List.cons_append, List.findIdx?_cons, hall x (List.mem_cons_self x xs)]
    rw [if_neg (by simp)]
    rw [ih (i + 1) (fun y hy => hall y (List.mem_cons_of_mem x hy))]
    congr 1
    simp
    omega

theorem findIdx?_clean (p : Char → Bool) :
    ∀ (l : List Char) (i : Nat), (∀ x ∈ l, p x = false) →
      List.findIdx? p l i = none := by
  intro l
  induction l with
  | nil => intro i _; rfl
  | cons x xs ih =>
    intro i hall
    rw [List.findIdx?_cons, hall x (List.mem_cons_self x xs), if_neg (by simp)]
    exact ih (i + 1) (fun y hy => hall y (List.mem_cons_of_mem x hy))

theorem splitOn_eq_single (c : Char) (l : List Char) (h : c ∉ l) :
    l.splitOn c = [l] := by
  unfold List.splitOn
  apply List.splitOnP_eq_single
  intro x hx
  simp only [beq_iff_eq]
  exact fun he => h (he ▸ hx)

theorem pathName_no_slash (l : Str) (hs : '/' ∉ l) (h0 : l ≠ [])
    (h1 : l ≠ ['.']) (h2 : l ≠ ['.', '.']) : pathName l = l := by
  unfold pathName
  rw [splitOn_eq_single '/' l hs]
  simp only [List.filter_cons, List.filter_nil]
  rw [if_pos (by simp [h0, h1])]
  simp only [List.getLast?_singleton]
  rw [if_neg h2]

theorem rfindDot_append (base ext : Str) (hext : '.' ∉ ext) :
    rfindDot (base ++ '.' :: ext) = some base.length := by
  unfold rfindDot
  have hrev : (base ++ '.' :: ext).reverse = ext.reverse ++ '.' :: base.reverse := by
    rw [List.reverse_append, List.reverse_cons]
    simp [List.append_assoc]
  rw [hrev]
  rw [findIdx?_clean_append _ _ '.' (by simp) ext.reverse 0 ?hclean]
  case hclean =>
    intro x hx
    rw [List.mem_reverse] at hx
    simp only [decide_eq_false_iff_not]
    exact fun he => hext (he ▸ hx)
  dsimp only
  congr 1
  simp [List.length_append, List.length_reverse]

theorem rfindDot_none (l : Str) (h : '.' ∉ l) : rfindDot l = none := by
  unfold rfindDot
  rw [findIdx?_clean _ l.reverse 0 ?hclean]
  case hclean =>
    intro x hx
    rw [List.mem_reverse] at hx
    simp only [decide_eq_false_iff_not]
    exact fun he => h (he ▸ hx)

theorem pathSuffix_append (base ext : Str) (hb : base ≠ []) (he : ext ≠ [])
    (hdot : '.' ∉ ext) (hsb : '/' ∉ base) (hse : '/' ∉ ext) :
    pathSuffix (base ++ '.' :: ext) = '.' :: ext := by
  unfold pathSuffix
  have hname : pathName (base ++ '.' :: ext) = base ++ '.' :: ext := by
    apply pathName_no_slash
    · intro hmem
      rcases List.mem_append.mp hmem with h | h
      · exact hsb h
      · rcases List.mem_cons.mp h with h | h
        · exact absurd h (by decide)
        · exact hse h
    · simp
    · intro heq
      have hlen := congrArg List.length heq
      simp only [List.length_append, List.length_cons, List.length_nil] at hlen
      have hb' : 0 < base.length := List.length_pos.mpr hb
      omega
    · intro heq
      have hlen := congrArg List.length heq
      simp only [List.length_append, List.length_cons, List.length_nil] at hlen
      have hb' : 0 < base.length := List.length_pos.mpr hb
      have he' : 0 < ext.length := List.length_pos.mpr he
      omega
  dsimp only
  rw [hname, rfindDot_append base ext hdot]
  dsimp only
  rw [if_pos ?cond]
  case cond =>
    refine ⟨List.length_pos.mpr hb, ?_⟩
    have he' : 0 < ext.length := List.length_pos.mpr he
    simp [List.length_append]
    omega
  exact List.drop_left base ('.' :: ext)

theorem detect_file_type_interior (base ext : Str) (hb : base ≠ []) (he : ext ≠ [])
    (hdot : '.' ∉ ext) (hsb : '/' ∉ base) (hse : '/' ∉ ext) :
    detect_file_type (base ++ '.' :: ext) =
      (fileTypeOfString (pyLower ext)).getD FileType.unknown := by
  unfold detect_file_type
  dsimp only
  rw [pathSuffix_append base ext hb he hdot hsb hse]
  have hl : pyLower ('.' :: ext) = '.' :: pyLower ext := by
    unfold pyLower
    rw [List.map_cons]
    congr 1
  rw [hl, List.dropWhile_cons, if_pos (by decide)]
  have hdw : (pyLower ext).dropWhile (fun c => decide (c = '.')) = pyLower ext := by
    cases hx : ext with
    | nil => rfl
    | cons e rest =>
      unfold pyLower
      rw [List.map_cons, List.dropWhile_cons, if_neg ?hne]
      case hne =>
        simp only [decide_eq_true_eq]
        rw [toLower_eq_dot_iff]
        intro heq
        exact hdot (hx ▸ (heq ▸ List.mem_cons_self e rest))
  rw [hdw]
  cases fileTypeOfString (pyLower ext) <;> rfl

theorem detect_file_type_dotfile (ext : Str) (he : ext ≠ []) (hdot : '.' ∉ ext)
    (hse : '/' ∉ ext) : detect_file_type ('.' :: ext) = FileType.unknown := by
  unfold detect_file_type
  dsimp only
  have hname : pathName ('.' :: ext) = '.' :: ext := by
    apply pathName_no_slash
    · intro hmem
      rcases List.mem_cons.mp hmem with h | h
      · exact absurd h (by decide)
      · exact hse h
    · simp
    · intro heq
      have := List.cons.injEq '.' ext '.' [] ▸ heq
      exact he (List.cons.inj heq).2
    · intro heq
      exact hdot ((List.cons.inj heq).2 ▸ List.mem_singleton.mpr rfl)
  have hfind : rfindDot ('.' :: ext) = some 0 := by
    have := rfindDot_append [] ext hdot
    simpa using this
  unfold pathSuffix
  dsimp only
  rw [hname, hfind]
  dsimp only
  rw [if_neg (by omega)]
  rfl

theorem detect_file_type_no_dot (f : Str) (hdot : '.' ∉ f) (hse : '/' ∉ f) :
    detect_file_type f = FileType.unknown := by
  unfold detect_file_type
  dsimp only
  have hsuf : pathSuffix f = [] := by
    unfold pathSuffix
    dsimp only
    cases hf : f with
    | nil => rfl
    | cons c rest =>
      have hname : pathName (c :: rest) = c :: rest := by
        apply pathName_no_slash
        · exact hf ▸ hse
        · simp
        · intro heq
          exact (hf ▸ hdot) ((List.cons.inj heq).1 ▸ List.mem_cons_self _ _)
        · intro heq
          exact (hf ▸ hdot) ((List.cons.inj heq).1 ▸ List.mem_cons_self _ _)
      rw [hname, rfindDot_none (c :: rest) (hf ▸ hdot)]
  rw [hsuf]
  rfl

/-- Claim C5, amended: `detect_file_type` is a pure total function that
resolves the extension as `Path.suffix` does — the text after the last
interior dot of the final path component, lower-cased and looked up in
the closed tag table.  A filename made of a dot-free base, a dot and a
dot-free extension resolves to the lower-cased extension's tag; a
dotfile (single leading dot, as in `".pdf"`) and a dot-free filename
both have no extension and map to `unknown`; the claim's three concrete
examples hold, including the case-insensitive pair. -/
theorem detect_file_type_amended :
    (∀ (base ext : Str), base ≠ [] → ext ≠ [] → '.' ∉ ext → '/' ∉ base → '/' ∉ ext →
       detect_file_type (base ++ '.' :: ext) =
         (fileTypeOfString (pyLower ext)).getD FileType.unknown) ∧
    (∀ ext : Str, ext ≠ [] → '.' ∉ ext → '/' ∉ ext →
       detect_file_type ('.' :: ext) = FileType.unknown) ∧
    (∀ f : Str, '.' ∉ f → '/' ∉ f → detect_file_type f = FileType.unknown) ∧
    detect_file_type "report.PDF".toList = detect_file_type "report.pdf".toList ∧
    detect_file_type "noextension".toList = FileType.unknown ∧
    detect_file_type "archive.tar.gz".toList = FileType.unknown :=
  ⟨detect_file_type_interior, detect_file_type_dotfile, detect_file_type_no_dot,
   by decide, by decide, by decide⟩

/-- Claim C5, counterexample: on the dotfile `".pdf"` the code returns
`unknown` (Path.suffix treats a lone leading dot as "no extension"),
while the claim's described algorithm — look up the lower-cased text
after the last dot of the filename — yields the `pdf` tag. -/
theorem detect_file_type_claim_false :
    detect_file_type ".pdf".toList = FileType.unknown ∧
    detectClaimC5 ".pdf".toList = FileType.pdf ∧
    FileType.unknown ≠ FileType.pdf := by decide

/-- Claim C5, witness: the amended statement instantiated at
`"report" ++ "." ++ "PDF"`, the dotfile `".pdf"` and the dot-free
`"noextension"`. -/
theorem detect_file_type_amended_witness :
    detect_file_type ("report".toList ++ '.' :: "PDF".toList) =
      (fileTypeOfString (pyLower "PDF".toList)).getD FileType.unknown ∧
    detect_file_type ('.' :: "pdf".toList) = FileType.unknown ∧
    detect_file_type "noextension".toList = FileType.unknown :=
  ⟨detect_file_type_amended.1 "report".toList "PDF".toList
     (by decide) (by decide) (by decide) (by decide) (by decide),
   detect_file_type_amended.2.1 "pdf".toList (by decide) (by decide) (by decide),
   detect_file_type_amended.2.2.1 "noextension".toList (by decide) (by decide)⟩

/-- Claim C6: for any registry and any filename whose detected tag has
no registered parser, both `parse_upload` and (for an existing path)
`parse_file` return `success=False` with an error naming the
unrecognized tag.  No extractor is invoked: the result is fixed by the
`none` lookup alone, for every possible assignment of parser behaviours
to the other tags. -/
theorem unsupported_type_rejected
    (registry : FileType → Option ParserFun) (dsize dov : Nat) (filename : Str)
    (cs co : Option Nat)
    (hreg : registry (detect_file_type filename) = none) :
    parse_upload registry dsize dov filename cs co =
      { success := false,
        error := some ("Unsupported file type: ".toList ++ (detect_file_type filename).value) } ∧
    ∀ fsExists : Str → Bool, fsExists filename = true →
      parse_file fsExists registry dsize dov filename cs co =
        { success := false,
          error := some ("Unsupported file type: ".toList ++ (detect_file_type filename).value) } := by
  constructor
  · unfold parse_upload
    rw [hreg]
  · intro fs hfs
    unfold parse_file
    rw [hfs, if_neg (by simp), hreg]

/-- Claim C6, witness: the empty registry rejects `"data.xyz"` through
both entry points. -/
theorem unsupported_type_rejected_witness :
    parse_upload (fun _ => none) 1000 200 "data.xyz".toList none none =
      { success := false,
        error := some ("Unsupported file type: ".toList ++
          (detect_file_type "data.xyz".toList).value) } ∧
    parse_file (fun _ => true) (fun _ => none) 1000 200 "data.xyz".toList none none =
      { success := false,
        error := some ("Unsupported file type: ".toList ++
          (detect_file_type "data.xyz".toList).value) } :=
  ⟨(unsupported_type_rejected (fun _ => none) 1000 200 "data.xyz".toList none none rfl).1,
   (unsupported_type_rejected (fun _ => none) 1000 200 "data.xyz".toList none none rfl).2
     (fun _ => true) rfl⟩

/-- Claim C10: passing `chunk_size=0` or `chunk_overlap=0` to the
service entry points behaves exactly as omitting the parameter — Python
`or` treats 0 as falsy — so with the service defaults a zero parameter
is replaced by 1000/200 before the resolved parser is invoked, and a
zero-character overlap can never reach a parser through the service. -/
theorem zero_chunk_params_defaulted
    (registry : FileType → Option ParserFun) (dsize dov : Nat) (filename : Str) :
    (∀ co, parse_upload registry dsize dov filename (some 0) co =
       parse_upload registry dsize dov filename none co) ∧
    (∀ cs, parse_upload registry dsize dov filename cs (some 0) =
       parse_upload registry dsize dov filename cs none) ∧
    (∀ (fs : Str → Bool) co, parse_file fs registry dsize dov filename (some 0) co =
       parse_file fs registry dsize dov filename none co) ∧
    (∀ (fs : Str → Bool) cs, parse_file fs registry dsize dov filename cs (some 0) =
       parse_file fs registry dsize dov filename cs none) ∧
    (∀ p, registry (detect_file_type filename) = some p →
       parse_upload registry 1000 200 filename (some 0) (some 0) = p filename 1000 200) := by
  refine ⟨fun co => rfl, fun cs => rfl, fun fs co => rfl, fun fs cs => rfl, fun p hp => ?_⟩
  unfold parse_upload
  rw [hp]
  rfl

/-- Claim C10, witness: a registry serving `.txt` through a fixed parser
behaviour receives 1000/200 when the caller passes explicit zeros. -/
theorem zero_chunk_params_defaulted_witness :
    parse_upload (fun t => if t = FileType.txt then
        some (fun _ _ _ => { success := true }) else none) 1000 200
      "a.txt".toList (some 0) (some 0) =
      (fun (_ : Str) (_ : Nat) (_ : Nat) => ({ success := true } : ParserResult))
        "a.txt".toList 1000 200 :=
  (zero_chunk_params_defaulted (fun t => if t = FileType.txt then
      some (fun _ _ _ => { success := true }) else none) 1000 200
    "a.txt".toList).2.2.2.2 (fun _ _ _ => { success := true }) rfl


theorem getLast?_cons_eq {α : Type} (l : List α) (a : α) :
    (a :: l).getLast? = some (l.getLast?.getD a) := by
  induction l generalizing a with
  | nil => rfl
  | cons b m ih =>
    rw [List.getLast?_cons_cons, ih b]
    cases hm : m.getLast? <;> simp [ih, hm]

theorem lastHeadingD_cons (h0 : Option Str) (t : Str) (b : Bool) (l : List (Str × Bool)) :
    lastHeadingD h0 ((t, b) :: l) = lastHeadingD (if b then some t else h0) l := by
  cases b with
  | true =>
    unfold lastHeadingD
    rw [show (((t, true) :: l).filterMap (fun tb => if tb.2 then some tb.1 else none)) =
          t :: l.filterMap (fun tb => if tb.2 then some tb.1 else none) from rfl]
    rw [getLast?_cons_eq]
    dsimp only
    cases hl : (l.filterMap (fun tb => if tb.2 = true then some tb.1 else none)).getLast? with
    | none => rfl
    | some v => rfl
  | false => rfl

theorem lastHeadingD_single (h0 : Option Str) (t : Str) (b : Bool) :
    lastHeadingD h0 [(t, b)] = if b then some t else h0 := by
  cases b <;> rfl

theorem docxLoop_parts (paras : List DocxPara) :
    ∀ (h0 : Option Str) (idx : Nat),
      (docxLoop paras h0 idx).1 = (docxRetained paras).map Prod.fst := by
  induction paras with
  | nil => intro h0 idx; rfl
  | cons p rest ih =>
    intro h0 idx
    unfold docxLoop docxRetained
    rw [List.filterMap_cons]
    dsimp only
    split
    · dsimp only
      exact ih _ _
    · dsimp only
      rw [ih]
      rfl

theorem docxLoop_len (paras : List DocxPara) :
    ∀ (h0 : Option Str) (idx : Nat),
      (docxLoop paras h0 idx).2.length = (docxRetained paras).length := by
  induction paras with
  | nil => intro h0 idx; rfl
  | cons p rest ih =>
    intro h0 idx
    unfold docxLoop docxRetained
    rw [List.filterMap_cons]
    dsimp only
    split
    · dsimp only
      exact ih _ _
    · dsimp only
      rw [List.length_cons, List.length_cons, ih]
      rfl


theorem docxLoop_get? (paras : List DocxPara) :
    ∀ (h0 : Option Str) (idx : Nat) (k : Nat),
      (docxLoop paras h0 idx).2[k]? =
        ((docxRetained paras)[k]?).map (fun tb =>
          { content := tb.1, source := "paragraph_".toList ++ natToStr (idx + k),
            chunk_index := idx + k,
            heading := lastHeadingD h0 ((docxRetained paras).take (k + 1)) }) := by
  induction paras with
  | nil => intro h0 idx k; rfl
  | cons p rest ih =>
    intro h0 idx k
    unfold docxLoop docxRetained
    rw [List.filterMap_cons]
    dsimp only
    split
    · exact ih h0 idx k
    · cases k with
      | zero =>
        rw [List.getElem?_cons_zero, List.getElem?_cons_zero]
        rw [List.take_succ_cons, List.take_zero, lastHeadingD_single]
        simp
      | succ q =>
        rw [List.getElem?_cons_succ, List.getElem?_cons_succ]
        rw [ih _ (idx + 1) q]
        rw [List.take_succ_cons, lastHeadingD_cons]
        have harith : idx + 1 + q = idx + (q + 1) := by omega
        rw [harith]
        rfl


/-- Claim C7, amended: the docx paragraph path extracts the stripped
non-empty paragraphs in document order — the full text joins them with
blank lines and, when no truthy `chunk_size` is given, the chunk list
has exactly one chunk per retained paragraph, each carrying as heading
the most recent heading-styled paragraph at or before it (a heading
paragraph's own chunk carries itself, see the counterexample); with a
truthy `chunk_size` the chunk list is instead recomputed from the full
text via `chunk_text`. -/
theorem docx_paragraph_extraction :
    (∀ (paras : List DocxPara) (tbls : List (List (List Str))) (co : Option Nat),
       (extract_with_docx paras tbls none co).1 =
         joinSep "\n\n".toList ((docxRetained paras).map Prod.fst) ∧
       (extract_with_docx paras tbls none co).2.1 = docxChunksSpec paras) ∧
    (∀ (paras : List DocxPara) (tbls : List (List (List Str))) (n : Nat) (co : Option Nat),
       n ≠ 0 →
       (extract_with_docx paras tbls (some n) co).2.1 =
         chunk_text (joinSep "\n\n".toList ((docxRetained paras).map Prod.fst))
           "chunk".toList (some n) co) := by
  constructor
  · intro paras tbls co
    unfold extract_with_docx
    dsimp only
    constructor
    · rw [docxLoop_parts]
    · rw [if_neg (by decide : ¬(optTruthy none = true))]
      apply List.ext_getElem?
      intro k
      rw [docxLoop_get? paras none 0 k]
      unfold docxChunksSpec
      rw [List.getElem?_map, List.getElem?_enum]
      cases hq : (docxRetained paras)[k]? with
      | none => rfl
      | some tb =>
        dsimp only [Option.map]
        simp
  · intro paras tbls n co hn
    unfold extract_with_docx
    dsimp only
    rw [if_pos (by simpa [optTruthy] using hn), docxLoop_parts]

/-- Claim C7, counterexample: a document whose first paragraph is
`Heading 1`-styled yields a first chunk whose heading is that paragraph
itself — but the most recent heading-styled paragraph strictly
preceding it does not exist, so the claim's heading would be `none`. -/
theorem docx_heading_claim_false :
    (extract_with_docx [⟨"Intro".toList, some "Heading 1".toList⟩] [] none none).2.1.map
      TextChunk.heading = [some "Intro".toList] ∧
    [some "Intro".toList] ≠ [(none : Option Str)] := by decide

/-- Claim C7, witness: the amended statement at a heading followed by a
body paragraph, without and with an explicit chunk size. -/
theorem docx_paragraph_extraction_witness :
    ((extract_with_docx [⟨"Intro".toList, some "Heading 1".toList⟩,
        ⟨"Body one.".toList, some "Normal".toList⟩] [] none none).1 =
      joinSep "\n\n".toList ((docxRetained [⟨"Intro".toList, some "Heading 1".toList⟩,
        ⟨"Body one.".toList, some "Normal".toList⟩]).map Prod.fst)) ∧
    ((extract_with_docx [⟨"Intro".toList, some "Heading 1".toList⟩,
        ⟨"Body one.".toList, some "Normal".toList⟩] [] none none).2.1 =
      docxChunksSpec [⟨"Intro".toList, some "Heading 1".toList⟩,
        ⟨"Body one.".toList, some "Normal".toList⟩]) ∧
    ((extract_with_docx [⟨"Intro".toList, some "Heading 1".toList⟩,
        ⟨"Body one.".toList, some "Normal".toList⟩] [] (some 50) none).2.1 =
      chunk_text (joinSep "\n\n".toList ((docxRetained [⟨"Intro".toList, some "Heading 1".toList⟩,
        ⟨"Body one.".toList, some "Normal".toList⟩]).map Prod.fst)) "chunk".toList (some 50) none) :=
  ⟨(docx_paragraph_extraction.1 _ _ _).1,
   (docx_paragraph_extraction.1 _ _ _).2,
   docx_paragraph_extraction.2 _ _ 50 none (by decide)⟩
theorem scanUrlsF_mem_prefix :
    ∀ (fuel : Nat) (l : List Char) (u : Str), u ∈ scanUrlsF fuel l →
      "http://".toList.isPrefixOf u = true ∨ "https://".toList.isPrefixOf u = true := by
  intro fuel
  induction fuel with
  | zero => intro l u hu; exact absurd hu (List.not_mem_nil u)
  | succ f ih =>
    intro l u hu
    unfold scanUrlsF at hu
    cases l with
    | nil => exact absurd hu (List.not_mem_nil u)
    | cons c rest =>
      dsimp only at hu
      split at hu
      · split at hu
        · rcases List.mem_cons.mp hu with rfl | hu'
          · exact Or.inr (List.isPrefixOf_iff_prefix.mpr (List.prefix_append _ _))
          · exact ih _ u hu'
        · exact ih _ u hu
      · split at hu
        · split at hu
          · rcases List.mem_cons.mp hu with rfl | hu'
            · exact Or.inl (List.isPrefixOf_iff_prefix.mpr (List.prefix_append _ _))
            · exact ih _ u hu'
          · exact ih _ u hu
        · exact ih _ u hu

/-- Claim C8, amended: the e-mail link harvester returns a duplicate-free
list in which every entry starts with `http://` or `https://` (the text
scan matches only the URL pattern, the HTML scan filters on those
prefixes, and the collected set is deduplicated), and the PDF annotation
link list is likewise deduplicated; the claim fails for the HTML/Markdown
text extractors, which append raw relative `href` values with
duplicates (see the counterexample). -/
theorem links_absolute_dedup :
    (∀ (bt bh : Str), (eml_extract_links bt bh).Nodup ∧
       ∀ u ∈ eml_extract_links bt bh,
         "http://".toList.isPrefixOf u = true ∨ "https://".toList.isPrefixOf u = true) ∧
    (∀ lib : Option (List (List (Option Str))), (pdf_extract_links lib).Nodup) := by
  constructor
  · intro bt bh
    refine ⟨List.nodup_dedup _, ?_⟩
    intro u hu
    unfold eml_extract_links at hu
    dsimp only at hu
    rcases List.mem_append.mp (List.mem_dedup.mp hu) with h | h
    · split at h
      · exact scanUrlsF_mem_prefix _ _ u h
      · exact absurd h (List.not_mem_nil u)
    · split at h
      · have hcond := (List.mem_filter.mp h).2
        rcases Bool.or_eq_true_iff.mp hcond with hc | hc
        · exact Or.inl hc
        · exact Or.inr hc
      · exact absurd h (List.not_mem_nil u)
  · intro lib
    unfold pdf_extract_links
    cases lib with
    | none => exact List.nodup_nil
    | some pages => exact List.nodup_dedup _

/-- Claim C8, counterexample: the HTML text extractor on
`<p>Hello</p><a href="page.html">link</a><a href="page.html">link2</a>`
returns the `href` values raw — the links list holds the same relative
URL twice: neither deduplicated nor absolute. -/
theorem links_claim_false :
    (text_extract_html exHtmlEvents).2 = ["page.html".toList, "page.html".toList] ∧
    ¬ (text_extract_html exHtmlEvents).2.Nodup ∧
    ¬ ("http://".toList.isPrefixOf "page.html".toList = true ∨
       "https://".toList.isPrefixOf "page.html".toList = true) := by decide

/-- Claim C8, witness: the amended statement at a body text with a
repeated URL plus an HTML body, and at a PDF page with one annotation. -/
theorem links_absolute_dedup_witness :
    ((eml_extract_links "see http://a.test and http://a.test".toList
        "<a href=\"https://b.test/x\">y</a>".toList).Nodup ∧
     ∀ u ∈ eml_extract_links "see http://a.test and http://a.test".toList
        "<a href=\"https://b.test/x\">y</a>".toList,
       "http://".toList.isPrefixOf u = true ∨ "https://".toList.isPrefixOf u = true) ∧
    (pdf_extract_links (some [[some "http://c.test".toList, none]])).Nodup :=
  ⟨links_absolute_dedup.1 _ _, links_absolute_dedup.2 _⟩
theorem renderedLengthSum_cons (c : ContextChunk) (l : List ContextChunk) :
    renderedLengthSum (c :: l) = (renderContextChunk c).length + renderedLengthSum l := by
  unfold renderedLengthSum
  rw [List.map_cons, List.sum_cons]

theorem toTextLoop_prefix (mc : Option Nat) :
    ∀ (chunks : List ContextChunk) (cur : Nat),
      ∃ n, n ≤ chunks.length ∧
        toTextLoop mc chunks cur = (chunks.take n).map renderContextChunk ∧
        (optTruthy mc = false → n = chunks.length) ∧
        (∀ m, mc = some m → m ≠ 0 → cur ≤ m →
          cur + renderedLengthSum (chunks.take n) ≤ m ∧
          (n = chunks.length ∨ m < cur + renderedLengthSum (chunks.take (n + 1)))) := by
  intro chunks
  induction chunks with
  | nil =>
    intro cur
    refine ⟨0, le_rfl, rfl, fun _ => rfl, fun m hm hm0 hcur => ?_⟩
    constructor
    · simpa [renderedLengthSum] using hcur
    · exact Or.inl rfl
  | cons c rest ih =>
    intro cur
    unfold toTextLoop
    dsimp only
    split
    · rename_i hcond
      refine ⟨0, Nat.zero_le _, by simp, ?_, ?_⟩
      · intro hf
        rw [hf] at hcond
        simp at hcond
      · intro m hm hm0 hcur
        subst hm
        constructor
        · simpa [renderedLengthSum] using hcur
        · refine Or.inr ?_
          rw [List.take_succ_cons, List.take_zero, renderedLengthSum_cons]
          have := hcond.2
          simp only [Option.getD_some] at this
          simp [renderedLengthSum]
          omega
    · rename_i hcond
      obtain ⟨n, h1, h2, h3, h4⟩ := ih (cur + (renderContextChunk c).length)
      refine ⟨n + 1, by simpa using h1, ?_, ?_, ?_⟩
      · rw [List.take_succ_cons, List.map_cons, h2]
      · intro hf
        rw [List.length_cons, h3 hf]
      · intro m hm hm0 hcur
        subst hm
        have hotruthy : optTruthy (some m) = true := by simpa [optTruthy] using hm0
        have hle : cur + (renderContextChunk c).length ≤ m := by
          by_contra hgt
          exact hcond ⟨hotruthy, by simpa [Option.getD_some] using Nat.lt_of_not_le hgt⟩
        obtain ⟨hb1, hb2⟩ := h4 m rfl hm0 hle
        constructor
        · rw [List.take_succ_cons, renderedLengthSum_cons]
          omega
        · rcases hb2 with he | hlt
          · exact Or.inl (by rw [List.length_cons, he])
          · refine Or.inr ?_
            rw [List.take_succ_cons, renderedLengthSum_cons]
            omega

/-- Claim C9: `to_text` renders each included chunk as its full
header-plus-content block and joins them with the fixed `"\n---\n"`
delimiter; the output is always such a rendering of a prefix of the
chunk list — every chunk fully included or fully excluded, never split —
and for a truthy budget the prefix is the longest whose cumulative
rendered length fits (a falsy budget, `None` or `0`, includes
everything). -/
theorem to_text_chunk_granularity (ctx : BuiltContext) (mc : Option Nat) :
    ∃ n, n ≤ ctx.chunks.length ∧
      to_text ctx mc = joinSep "\n---\n".toList ((ctx.chunks.take n).map renderContextChunk) ∧
      (optTruthy mc = false → n = ctx.chunks.length) ∧
      (∀ m, mc = some m → m ≠ 0 →
        renderedLengthSum (ctx.chunks.take n) ≤ m ∧
        (n = ctx.chunks.length ∨ m < renderedLengthSum (ctx.chunks.take (n + 1)))) := by
  obtain ⟨n, h1, h2, h3, h4⟩ := toTextLoop_prefix mc ctx.chunks 0
  refine ⟨n, h1, ?_, h3, ?_⟩
  · rw [to_text, h2]
  · intro m hm hm0
    have := h4 m hm hm0 (Nat.zero_le m)
    simpa using this

/-- Claim C9, witness: the characterization evaluated at a concrete
two-chunk context with a budget admitting only the first chunk. -/
theorem to_text_chunk_granularity_witness :
    ∃ n, n ≤ (BuiltContext.mk
        [⟨"alpha".toList, ContextSourceType.document, "1".toList, "a.txt".toList, none⟩,
         ⟨"beta".toList, ContextSourceType.document, "2".toList, "b.txt".toList, none⟩]
        5 []).chunks.length ∧
      to_text (BuiltContext.mk
        [⟨"alpha".toList, ContextSourceType.document, "1".toList, "a.txt".toList, none⟩,
         ⟨"beta".toList, ContextSourceType.document, "2".toList, "b.txt".toList, none⟩]
        5 []) (some 30) =
        joinSep "\n---\n".toList (((BuiltContext.mk
        [⟨"alpha".toList, ContextSourceType.document, "1".toList, "a.txt".toList, none⟩,
         ⟨"beta".toList, ContextSourceType.document, "2".toList, "b.txt".toList, none⟩]
        5 []).chunks.take n).map renderContextChunk) ∧
      (optTruthy (some 30) = false → n = 2) ∧
      (∀ m, some 30 = some m → m ≠ 0 →
        renderedLengthSum ((BuiltContext.mk
        [⟨"alpha".toList, ContextSourceType.document, "1".toList, "a.txt".toList, none⟩,
         ⟨"beta".toList, ContextSourceType.document, "2".toList, "b.txt".toList, none⟩]
        5 []).chunks.take n) ≤ m ∧
        (n = 2 ∨ m < renderedLengthSum ((BuiltContext.mk
        [⟨"alpha".toList, ContextSourceType.document, "1".toList, "a.txt".toList, none⟩,
         ⟨"beta".toList, ContextSourceType.document, "2".toList, "b.txt".toList, none⟩]
        5 []).chunks.take (n + 1)))) :=
  to_text_chunk_granularity _ (some 30)
